import Mathlib

/-! Filtering, payload encoding and dispatch of `pg_logforward`.

A shallow embedding of `pg_logforward.c`.

Conventions of the embedding.

* A byte is a natural number (its value as `unsigned char`).  A `const char *`
  argument is the list of bytes found at the pointer; the C string it denotes is
  the part before the first NUL (`cstr`), the end of the list standing for a
  terminator.  A nullable pointer is an `Option`.
* `msgbuf` is a list of bytes.  A store past its end lengthens the list, so a
  write outside the `MAX_MESSAGE_SIZE` bytes of the buffer is visible as a
  change of length.
* `size_t` is 64 bits wide and a pointer is 8 bytes (LP64).  `int` values are
  integers; the arithmetic done on them here (`facility_id * 8 + severity`,
  sums of `snprintf` results) is not wrapped.
-/

namespace PgLogforward

/-! ## Bytes, C strings and the C library -/

/-- The bytes of an ASCII string literal of the source. -/
def lit (s : String) : List Nat := s.toList.map Char.toNat

/-- The C string at a pointer: the bytes before the first NUL. -/
def cstr : List Nat → List Nat
  | [] => []
  | c :: r => if c = 0 then [] else c :: cstr r

/-- The function `strlen`. -/
def strlen (s : List Nat) : Nat := (cstr s).length

/-- Write the bytes `bs` into memory at offset `i`; bytes past the end of
`mem` lengthen it. -/
def store (mem : List Nat) (i : Nat) (bs : List Nat) : List Nat :=
  mem.take i ++ List.replicate (i - mem.length) 0 ++ bs ++ mem.drop (i + bs.length)

/-- The call `strncat(dst, src, n)`: find the terminator of the string at `dst`, copy at
most `n` bytes of `src` there and terminate. -/
def strncat (mem : List Nat) (dst : Nat) (src : List Nat) (n : Nat) : List Nat :=
  store mem (dst + strlen (mem.drop dst)) ((cstr src).take n ++ [0])

/-- Decimal digits of `n`, most significant first, in front of `acc`. -/
def digitsAux (base : Nat) (digit : Nat → Nat) : Nat → Nat → List Nat → List Nat
  | 0, _, acc => acc
  | fuel + 1, n, acc =>
    if n < base then digit n :: acc
    else digitsAux base digit fuel (n / base) (digit (n % base) :: acc)

/-- ASCII of a decimal digit. -/
def decDigit (d : Nat) : Nat := 48 + d

/-- ASCII of a lower-case hexadecimal digit. -/
def hexDigit (d : Nat) : Nat := if d < 10 then 48 + d else 87 + d

/-- Conversion `%u`. -/
def fmt_u (n : Nat) : List Nat := digitsAux 10 decDigit (n + 1) n []

/-- Conversion `%d`. -/
def fmt_d (v : Int) : List Nat :=
  if v < 0 then 45 :: fmt_u v.natAbs else fmt_u v.natAbs

/-- Conversion `%x`. -/
def fmt_x (n : Nat) : List Nat := digitsAux 16 hexDigit (n + 1) n []

/-- Conversion `%04x`: `%x` padded on the left with zeros to four characters. -/
def fmt_04x (n : Nat) : List Nat :=
  List.replicate (4 - (fmt_x n).length) 48 ++ fmt_x n

/-- Conversion `%02d` of a non-negative value. -/
def fmt_02u (n : Nat) : List Nat :=
  List.replicate (2 - (fmt_u n).length) 48 ++ fmt_u n

/-- Conversion `%s`; glibc prints `(null)` for a null pointer. -/
def fmt_s : Option (List Nat) → List Nat
  | none => lit "(null)"
  | some s => cstr s

/-- The call `snprintf(mem + off, size, ...)` where the conversions expand to `text`:
at most `size - 1` bytes of `text` and a terminator are written, nothing when
`size` is zero; the result is the length of the whole of `text`. -/
def snprintf (mem : List Nat) (off size : Nat) (text : List Nat) : List Nat × Nat :=
  (if size = 0 then mem else store mem off (text.take (size - 1) ++ [0]), text.length)

/-- Contents of a local `char[n]` after `snprintf(buf, n, ...)` expanding to
`text`. -/
def snprintf_local (n : Nat) (text : List Nat) : List Nat := text.take (n - 1)

/-- Whether `p` is a prefix of `s`. -/
def startsWith : List Nat → List Nat → Bool
  | [], _ => true
  | _ :: _, [] => false
  | a :: p, b :: s => a == b && startsWith p s

/-- Search of `needle` in `hay` from offset `k` on. -/
def strstr_from (needle : List Nat) : List Nat → Nat → Option Nat
  | [], k => if startsWith needle [] then some k else none
  | h :: t, k => if startsWith needle (h :: t) then some k else strstr_from needle t (k + 1)

/-- The call `strstr(hay, needle)`: offset of the first occurrence of the string
`needle` in the string `hay`, `none` for a null result. -/
def strstr (hay needle : List Nat) : Option Nat :=
  strstr_from (cstr needle) (cstr hay) 0

/-! ## Constants -/

def MAX_MESSAGE_SIZE : Nat := 8192

/-- The `sizeof` of a pointer. -/
def SIZEOF_PTR : Nat := 8

/-- Modulus of `size_t` arithmetic. -/
def SIZE_MOD : Nat := 2 ^ 64

/-- Modulus of `unsigned`. -/
def UINT_MOD : Nat := 2 ^ 32

/-! ## The bounded appenders -/

/-- The pair `(*dst, *max)` of the appenders, with the memory they write:
`dst` is the offset of the cursor from `msgbuf`. -/
structure Cursor where
  mem : List Nat
  dst : Nat
  max : Nat
  deriving DecidableEq, Repr

/-- The function `append_string(dst, max, src)`. -/
def append_string (st : Cursor) (src : Option (List Nat)) : Cursor :=
  if st.max = 0 then st
  else match src with
    | none => st
    | some s =>
      let len := if strlen s ≥ st.max then st.max - 1 else strlen s
      { mem := strncat st.mem st.dst s len, dst := st.dst + len, max := st.max - len }

/-- The body of the `switch` of `escape_json` for the byte `c`. -/
def escape_json_char (st : Cursor) (c : Nat) : Cursor :=
  if c = 8 then append_string st (some (lit "\\b"))
  else if c = 12 then append_string st (some (lit "\\f"))
  else if c = 10 then append_string st (some (lit "\\n"))
  else if c = 13 then append_string st (some (lit "\\r"))
  else if c = 9 then append_string st (some (lit "\\t"))
  else if c = 34 then append_string st (some (lit "\\\""))
  else if c = 92 then append_string st (some (lit "\\\\"))
  else if c < 32 then append_string st (some (snprintf_local 16 (lit "\\u" ++ fmt_04x c)))
  else append_string st (some [c, 0])

/-- The loop `for (p = str; *p; p++)` of `escape_json`. -/
def escape_json_loop (st : Cursor) : List Nat → Cursor
  | [] => st
  | c :: r => if c = 0 then st else escape_json_loop (escape_json_char st c) r

/-- The function `escape_json(dst, max, str)`. -/
def escape_json (st : Cursor) (str : List Nat) : Cursor :=
  append_string (escape_json_loop (append_string st (some (lit "\""))) str) (some (lit "\""))

/-- The function `append_json_string(buf, max, key, val, addComma)`. -/
def append_json_string (st : Cursor) (key : List Nat) (val : Option (List Nat))
    (addComma : Bool) : Cursor :=
  let st := escape_json st key
  let st := append_string st (some (lit ": "))
  let st := match val with
    | some v => escape_json st v
    | none => append_string st (some (lit "null"))
  if addComma then append_string st (some (lit ", ")) else st

/-- The function `append_json_int(buf, max, key, val, addComma)`.  The size given to
`snprintf` is `sizeof(buf)`, the size of the pointer argument. -/
def append_json_int (st : Cursor) (key : List Nat) (val : Int) (addComma : Bool) : Cursor :=
  let st := escape_json st key
  let st := append_string st (some (lit ": "))
  let intbuf := snprintf_local SIZEOF_PTR (fmt_d val)
  let st := append_string st (some intbuf)
  if addComma then append_string st (some (lit ", ")) else st

/-! ## Data model -/

/-- The fields of `ErrorData` the module reads. -/
structure ErrorData where
  elevel : Int
  sqlerrcode : Int
  message : Option (List Nat)
  detail : Option (List Nat)
  hint : Option (List Nat)
  context : Option (List Nat)
  funcname : Option (List Nat)
  deriving DecidableEq, Repr

/-- The fields of `Port` read through `MyProcPort`. -/
structure Port where
  database_name : Option (List Nat)
  remote_host : Option (List Nat)
  user_name : Option (List Nat)
  deriving DecidableEq, Repr

/-- The session identity kept in the statics `log_username`, `log_database`
and `log_hostname`. -/
structure Session where
  log_username : Option (List Nat)
  log_database : Option (List Nat)
  log_hostname : Option (List Nat)
  deriving DecidableEq, Repr

/-- The levels of `elog.h` named by the source, parameters of the embedding. -/
structure ElogLevels where
  DEBUG1 : Int
  INFO : Int
  NOTICE : Int
  WARNING : Int
  ERROR : Int
  FATAL : Int
  PANIC : Int
  deriving DecidableEq, Repr

/-- The result of `gmtime`: the fields of `struct tm` used by the format
`%F-%dT%H:%M:%SZ`. -/
structure Tm where
  tm_year : Nat
  tm_mon : Nat
  tm_mday : Nat
  tm_hour : Nat
  tm_min : Nat
  tm_sec : Nat
  deriving DecidableEq, Repr

/-- What a formatter reads besides its target and record: the session
identity, `debug_query_string`, `my_hostname`, `MyProcPid`, the levels of the
host and the reading of the clock taken by `time` and `gmtime`. -/
structure Env where
  session : Session
  debug_query_string : Option (List Nat)
  my_hostname : List Nat
  MyProcPid : Int
  levels : ElogLevels
  gmt : Tm
  deriving DecidableEq, Repr

/-- The three functions a `format_payload` pointer can hold. -/
inductive Formatter where
  | format_json
  | format_syslog
  | format_netstr
  deriving DecidableEq, Repr

/-- The fields of `struct sockaddr_in`. -/
structure SockAddr where
  sin_family : Nat
  sin_port : Nat
  sin_addr : Nat
  deriving DecidableEq, Repr

/-- The `struct LogTarget`, the list link `next` being the order of a `List`. -/
structure LogTarget where
  name : List Nat
  remote_ip : Option (List Nat)
  remote_port : Int
  log_socket : Int
  si_remote : SockAddr
  log_format : Option (List Nat)
  syslog_facility : Option (List Nat)
  facility_id : Int
  min_elevel : Int
  message_filter : Option (List Nat)
  format_payload : Formatter
  deriving DecidableEq, Repr

/-! ## The formatters

Each returns `msgbuf`: here the memory of the buffer after the call, whose
C string (`cstr`) is the payload. -/

/-- The function `format_json(target, edata)` run on the buffer contents `msgbuf`. -/
def format_json (msgbuf : List Nat) (_target : LogTarget) (edata : ErrorData) (env : Env) :
    List Nat :=
  let st : Cursor := { mem := store msgbuf 0 [0], dst := 0, max := MAX_MESSAGE_SIZE }
  let st := append_string st (some (lit "\x7b "))
  let st := append_json_string st (lit "username") env.session.log_username true
  let st := append_json_string st (lit "database") env.session.log_database true
  let st := append_json_string st (lit "remotehost") env.session.log_hostname true
  let st := append_json_string st (lit "debug_query_string") env.debug_query_string true
  let st := append_json_int st (lit "elevel") edata.elevel true
  let st := append_json_string st (lit "funcname") edata.funcname true
  let st := append_json_int st (lit "sqlerrcode") edata.sqlerrcode true
  let st := append_json_string st (lit "message") edata.message true
  let st := append_json_string st (lit "detail") edata.detail true
  let st := append_json_string st (lit "hint") edata.hint true
  let st := append_json_string st (lit "context") edata.context false
  let st := append_string st (some (lit " \x7d"))
  st.mem

/-- The table `levels` of `format_syslog`. -/
def syslog_levels (lv : ElogLevels) : List (Int × Int) :=
  [(lv.DEBUG1, 7), (lv.INFO, 6), (lv.NOTICE, 5), (lv.WARNING, 4),
   (lv.ERROR, 3), (lv.FATAL, 2), (lv.PANIC, 0)]

/-- The loop `for (i = 0; i < n && severity < 0; i++) if (elevel <= levels[i][0])
severity = levels[i][1];` over the rest of the table. -/
def syslog_severity_loop (elevel : Int) : List (Int × Int) → Int → Int
  | [], severity => severity
  | (threshold, sev) :: rest, severity =>
    if severity < 0 then
      syslog_severity_loop elevel rest (if elevel ≤ threshold then sev else severity)
    else severity

/-- The value of `severity` after the loop, which starts from `-1`. -/
def syslog_severity (lv : ElogLevels) (elevel : Int) : Int :=
  syslog_severity_loop elevel (syslog_levels lv) (-1)

/-- The value of `pri`. -/
def syslog_pri (lv : ElogLevels) (target : LogTarget) (edata : ErrorData) : Int :=
  target.facility_id * 8 + syslog_severity lv edata.elevel

/-- The call `strftime(ts, max, "%F-%dT%H:%M:%SZ", gmt)`: the contents of `ts`.  When the
text does not fit the contents are indeterminate in C, the empty string here
(it does not happen for a `tm_year` of type `int`). -/
def strftime (max : Nat) (gmt : Tm) : List Nat :=
  let text := fmt_u (gmt.tm_year + 1900) ++ lit "-" ++ fmt_02u (gmt.tm_mon + 1) ++ lit "-"
    ++ fmt_02u gmt.tm_mday ++ lit "-" ++ fmt_02u gmt.tm_mday ++ lit "T"
    ++ fmt_02u gmt.tm_hour ++ lit ":" ++ fmt_02u gmt.tm_min ++ lit ":" ++ fmt_02u gmt.tm_sec
    ++ lit "Z"
  if text.length < max then text else []

/-- The size argument `sizeof(msgbuf) - len`, computed in `size_t`. -/
def size_left (len : Nat) : Nat :=
  (MAX_MESSAGE_SIZE + SIZE_MOD - len % SIZE_MOD) % SIZE_MOD

/-- The header written by the first `snprintf` of `format_syslog`. -/
def syslog_header (target : LogTarget) (edata : ErrorData) (env : Env) : List Nat :=
  lit "<" ++ fmt_d (syslog_pri env.levels target edata) ++ lit ">1 " ++ strftime 32 env.gmt
    ++ lit " " ++ cstr env.my_hostname ++ lit " postgres " ++ fmt_d env.MyProcPid ++ lit " "
    ++ lit "-" ++ lit " "

/-- The function `format_syslog(target, edata)` run on the buffer contents `msgbuf`. -/
def format_syslog (msgbuf : List Nat) (target : LogTarget) (edata : ErrorData) (env : Env) :
    List Nat :=
  let r := snprintf msgbuf 0 MAX_MESSAGE_SIZE (syslog_header target edata env)
  let len := r.2
  let r := snprintf r.1 len (size_left len) (lit "-" ++ lit " ")
  let len := len + r.2
  let r := snprintf r.1 len (size_left len) (fmt_s edata.message)
  r.1

/-- The macro `NETSTR(buf, size, value)`. -/
def NETSTR (mem : List Nat) (off size : Nat) (value : Option (List Nat)) : List Nat × Nat :=
  snprintf mem off size
    (fmt_u ((match value with | some v => strlen v | none => 0) % UINT_MOD) ++ lit ":"
      ++ (match value with | some v => cstr v | none => cstr (lit "")) ++ lit ",")

/-- One statement `len += NETSTR(msgbuf+len, sizeof(msgbuf)-len, value)` on the
pair of the memory and `len`. -/
def netstr_add (st : List Nat × Nat) (value : Option (List Nat)) : List Nat × Nat :=
  let r := NETSTR st.1 st.2 (size_left st.2) value
  (r.1, st.2 + r.2)

/-- The body of `format_netstr`: the memory and `len` after the eleven
statements. -/
def format_netstr_run (msgbuf : List Nat) (edata : ErrorData) (env : Env) : List Nat × Nat :=
  let st : List Nat × Nat := (msgbuf, 0)
  let st := netstr_add st (some (snprintf_local 16 (fmt_d edata.elevel)))
  let st := netstr_add st (some (snprintf_local 16 (fmt_d edata.sqlerrcode)))
  let st := netstr_add st env.session.log_username
  let st := netstr_add st env.session.log_database
  let st := netstr_add st env.session.log_hostname
  let st := netstr_add st edata.funcname
  let st := netstr_add st edata.message
  let st := netstr_add st edata.detail
  let st := netstr_add st edata.hint
  let st := netstr_add st edata.context
  netstr_add st env.debug_query_string

/-- The function `format_netstr(target, edata)` run on the buffer contents `msgbuf`. -/
def format_netstr (msgbuf : List Nat) (_target : LogTarget) (edata : ErrorData) (env : Env) :
    List Nat :=
  (format_netstr_run msgbuf edata env).1

/-- The call `t->format_payload(t, edata)`. -/
def call_format_payload (msgbuf : List Nat) (t : LogTarget) (edata : ErrorData) (env : Env) :
    List Nat :=
  match t.format_payload with
  | .format_json => format_json msgbuf t edata env
  | .format_syslog => format_syslog msgbuf t edata env
  | .format_netstr => format_netstr msgbuf t edata env

/-! ## Dispatch -/

/-- What `emit_log` does to the outside: a datagram handed to `sendto` on a
socket for an address, or the line written to `stderr` after a failed send. -/
inductive Event where
  | sendto (log_socket : Int) (payload : List Nat) (si_remote : SockAddr)
  | stderr_sendto
  deriving DecidableEq, Repr

/-- The host of one call of `emit_log`: `MyProcPort`, `debug_query_string`,
`my_hostname`, `MyProcPid`, the levels, and two oracles indexed by the number
of sends attempted before: the reading of the clock a formatter would take and
the result of `sendto`. -/
structure Host where
  MyProcPort : Option Port
  debug_query_string : Option (List Nat)
  my_hostname : List Nat
  MyProcPid : Int
  levels : ElogLevels
  clock : Nat → Tm
  sendto_result : Nat → Int

/-- The statics written by `emit_log`. -/
structure Statics where
  session : Session
  msgbuf : List Nat
  deriving DecidableEq, Repr

/-- The two `continue` tests of the loop of `emit_log`: `some true` when the
target is skipped, `none` when `strstr` is given a null message. -/
def skips (t : LogTarget) (edata : ErrorData) : Option Bool :=
  if edata.elevel < t.min_elevel then some true
  else match t.message_filter with
    | none => some false
    | some filter =>
      match edata.message with
      | none => none
      | some message => some (strstr message filter).isNone

/-- The environment of the formatter called for send number `k`. -/
def Host.env (h : Host) (session : Session) (k : Nat) : Env :=
  { session := session, debug_query_string := h.debug_query_string,
    my_hostname := h.my_hostname, MyProcPid := h.MyProcPid, levels := h.levels,
    gmt := h.clock k }

/-- The loop of `emit_log` over the targets from `t` on, `k` sends having been
attempted: the events and the final contents of `msgbuf`. -/
def emit_log_loop (h : Host) (session : Session) (edata : ErrorData) :
    List LogTarget → Nat → List Nat → Option (List Event × List Nat)
  | [], _, msgbuf => some ([], msgbuf)
  | t :: rest, k, msgbuf =>
    match skips t edata with
    | none => none
    | some true => emit_log_loop h session edata rest k msgbuf
    | some false =>
      let buf := call_format_payload msgbuf t edata (h.env session k)
      let sent := Event.sendto t.log_socket (cstr buf) t.si_remote
      let report := if h.sendto_result k < 0 then [Event.stderr_sendto] else []
      match emit_log_loop h session edata rest (k + 1) buf with
      | none => none
      | some (events, msgbuf) => some (sent :: report ++ events, msgbuf)

/-- The session identity after `if (MyProcPort) { ... }`. -/
def capture_session (h : Host) (old : Session) : Session :=
  match h.MyProcPort with
  | some port =>
    { log_username := port.user_name, log_database := port.database_name,
      log_hostname := port.remote_host }
  | none => old

/-- The function `emit_log(edata)` with the target list `log_targets`: the events and the
statics afterwards, `none` when the run is undefined.  The call of
`prev_emit_log_hook`, foreign code, is left out. -/
def emit_log (h : Host) (log_targets : List LogTarget) (statics : Statics) (edata : ErrorData) :
    Option (List Event × Statics) :=
  let session := capture_session h statics.session
  match emit_log_loop h session edata log_targets 0 statics.msgbuf with
  | none => none
  | some (events, msgbuf) => some (events, { session := session, msgbuf := msgbuf })

/-! ## Construction of the targets

The loop of `_PG_init` over the names of `logforward.target_names`.  What the
host gives for one name, the values of its configuration variables after their
definition and the results of `socket`, `fcntl` and `inet_aton`, is one
`TargetConfig`; the lines written to `stderr` are left out. -/

/-- An entry `CODE` of the table `facilitynames` of `syslog.h`. -/
structure CODE where
  c_name : List Nat
  c_val : Nat
  deriving DecidableEq, Repr

/-- The macro `LOG_FAC(p)` of `syslog.h`: `((p) & 0x03f8) >> 3`. -/
def LOG_FAC (p : Nat) : Int := ((p % 1024) / 8 : Nat)

/-- The function `tolower` on ASCII. -/
def tolower (c : Nat) : Nat := if 65 ≤ c ∧ c ≤ 90 then c + 32 else c

/-- Whether `strcasecmp(a, b) == 0`. -/
def strcasecmp_eq (a b : List Nat) : Bool :=
  (cstr a).map tolower == (cstr b).map tolower

/-- Whether `strcmp(a, b) == 0`. -/
def strcmp_eq (a b : List Nat) : Bool := cstr a == cstr b

/-- What the host gives for one target name. -/
structure TargetConfig where
  tgname : List Nat
  remote_ip : Option (List Nat)
  remote_port : Int
  min_elevel : Int
  message_filter : Option (List Nat)
  log_format : Option (List Nat)
  syslog_facility : Option (List Nat)
  socket_result : Int
  fcntl_result : Int
  inet_aton_result : Option Nat
  deriving DecidableEq, Repr

/-- The loop `for (c = facilitynames; c->c_name && target->facility_id < 0; c++)`
over the rest of the table. -/
def facility_loop (syslog_facility : List Nat) : List CODE → Int → Int
  | [], facility_id => facility_id
  | c :: rest, facility_id =>
    if facility_id < 0 then
      facility_loop syslog_facility rest
        (if strcasecmp_eq c.c_name syslog_facility then LOG_FAC c.c_val else facility_id)
    else facility_id

/-- How the body of the loop of `_PG_init` ends for one name: with `continue`,
with `break`, or by appending the target to the list. -/
inductive InitStep where
  | continue_
  | break_
  | append (target : LogTarget)
  deriving DecidableEq, Repr

/-- The body of the loop of `_PG_init` for one name. -/
def init_target (facilitynames : List CODE) (c : TargetConfig) : InitStep :=
  match c.remote_ip with
  | none => .continue_
  | some remote_ip =>
    if c.remote_port = 0 then .continue_
    else if c.socket_result < 0 then .continue_
    else if c.fcntl_result = -1 then .continue_
    else
      let si_remote : SockAddr :=
        { sin_family := 2, sin_port := c.remote_port.toNat,
          sin_addr := c.inet_aton_result.getD 0 }
      let log_format := c.log_format.getD (lit "json")
      let target : LogTarget :=
        { name := c.tgname, remote_ip := some remote_ip, remote_port := c.remote_port,
          log_socket := c.socket_result, si_remote := si_remote,
          log_format := some log_format, syslog_facility := c.syslog_facility,
          facility_id := -1, min_elevel := c.min_elevel, message_filter := c.message_filter,
          format_payload := .format_json }
      if strcmp_eq log_format (lit "json") then .append target
      else if strcmp_eq log_format (lit "netstr") then
        .append { target with format_payload := .format_netstr }
      else if strcmp_eq log_format (lit "syslog") then
        let syslog_facility := c.syslog_facility.getD (lit "local0")
        let facility_id := facility_loop syslog_facility facilitynames (-1)
        if facility_id < 0 then .break_
        else
          .append { target with format_payload := .format_syslog,
                                syslog_facility := some syslog_facility,
                                facility_id := facility_id }
      else .append target

/-- The list `log_targets` after `_PG_init`, for the configurations of the
names of `logforward.target_names` in their order. -/
def _PG_init (facilitynames : List CODE) : List TargetConfig → List LogTarget
  | [] => []
  | c :: rest =>
    match init_target facilitynames c with
    | .continue_ => _PG_init facilitynames rest
    | .break_ => []
    | .append target => target :: _PG_init facilitynames rest

/-- The facilities of `facilitynames` in glibc. -/
def glibc_facilitynames : List CODE :=
  [⟨lit "auth", 32⟩, ⟨lit "authpriv", 80⟩, ⟨lit "cron", 72⟩, ⟨lit "daemon", 24⟩,
   ⟨lit "ftp", 88⟩, ⟨lit "kern", 0⟩, ⟨lit "lpr", 48⟩, ⟨lit "mail", 16⟩, ⟨lit "mark", 192⟩,
   ⟨lit "news", 56⟩, ⟨lit "security", 32⟩, ⟨lit "syslog", 40⟩, ⟨lit "user", 8⟩,
   ⟨lit "uucp", 64⟩, ⟨lit "local0", 128⟩, ⟨lit "local1", 136⟩, ⟨lit "local2", 144⟩,
   ⟨lit "local3", 152⟩, ⟨lit "local4", 160⟩, ⟨lit "local5", 168⟩, ⟨lit "local6", 176⟩,
   ⟨lit "local7", 184⟩]

/-- A configuration with address, port and sockets in order, of the given
name, format and facility. -/
def sample_config (tgname : String) (log_format syslog_facility : Option String) :
    TargetConfig :=
  { tgname := lit tgname, remote_ip := some (lit "127.0.0.1"), remote_port := 514,
    min_elevel := 0, message_filter := none, log_format := log_format.map lit,
    syslog_facility := syslog_facility.map lit, socket_result := 3, fcntl_result := 0,
    inet_aton_result := some 2130706433 }

/-! ## Specification-side definitions -/

/-- The cursor stands on a terminator: `**dst == 0`. -/
def AtNul (st : Cursor) : Prop := st.mem[st.dst]? = some 0

instance (st : Cursor) : Decidable (AtNul st) := by unfold AtNul; infer_instance

/-- The cursor after `text` and a terminator have been written at it in
full. -/
def Cursor.put (st : Cursor) (text : List Nat) : Cursor :=
  { mem := store st.mem st.dst (text ++ [0]), dst := st.dst + text.length,
    max := st.max - text.length }

/-- No byte of `s` is NUL. -/
def NulFree (s : List Nat) : Prop := ∀ b ∈ s, b ≠ 0

instance (s : List Nat) : Decidable (NulFree s) := by unfold NulFree; infer_instance

/-- The function `f` appends `text` at the cursor whenever the cursor stands on a
terminator and the counter leaves room for `text` and its terminator. -/
def Appends (f : Cursor → Cursor) (text : List Nat) : Prop :=
  ∀ st, AtNul st → text.length < st.max → f st = st.put text

/-- The image of one byte in a string literal of the structured-text format:
the two-character escapes, `\u00XX` for the other bytes below 0x20, the byte
itself otherwise. -/
def json_image (b : Nat) : List Nat :=
  if b = 8 then lit "\\b"
  else if b = 12 then lit "\\f"
  else if b = 10 then lit "\\n"
  else if b = 13 then lit "\\r"
  else if b = 9 then lit "\\t"
  else if b = 34 then lit "\\\""
  else if b = 92 then lit "\\\\"
  else if b < 32 then lit "\\u00" ++ [hexDigit (b / 16), hexDigit (b % 16)]
  else [b]

/-- The images of the bytes of `s`, in order. -/
def json_escape : List Nat → List Nat
  | [] => []
  | b :: r => json_image b ++ json_escape r

/-- The string literal of `s`: its escaped bytes between double quotes. -/
def json_quote (s : List Nat) : List Nat := lit "\"" ++ json_escape s ++ lit "\""

/-- The value of a string field: its literal, or the token `null` for an
absent one. -/
def json_value : Option (List Nat) → List Nat
  | some v => json_quote (cstr v)
  | none => lit "null"

/-- A pair with a string value: the quoted key, `: `, the value. -/
def json_pair (key : String) (val : Option (List Nat)) : List Nat :=
  lit "\"" ++ lit key ++ lit "\"" ++ lit ": " ++ json_value val

/-- A pair with a numeric value: the quoted key, `: `, the decimal digits. -/
def json_pair_int (key : String) (val : Int) : List Nat :=
  lit "\"" ++ lit key ++ lit "\"" ++ lit ": " ++ fmt_d val

/-- The object literal of a record and session identity: the eleven pairs in
their order, separated by `, `, between `\x7b ` and ` \x7d`. -/
def json_object (edata : ErrorData) (env : Env) : List Nat :=
  lit "\x7b "
    ++ json_pair "username" env.session.log_username ++ lit ", "
    ++ json_pair "database" env.session.log_database ++ lit ", "
    ++ json_pair "remotehost" env.session.log_hostname ++ lit ", "
    ++ json_pair "debug_query_string" env.debug_query_string ++ lit ", "
    ++ json_pair_int "elevel" edata.elevel ++ lit ", "
    ++ json_pair "funcname" edata.funcname ++ lit ", "
    ++ json_pair_int "sqlerrcode" edata.sqlerrcode ++ lit ", "
    ++ json_pair "message" edata.message ++ lit ", "
    ++ json_pair "detail" edata.detail ++ lit ", "
    ++ json_pair "hint" edata.hint ++ lit ", "
    ++ json_pair "context" edata.context
    ++ lit " \x7d"

/-! ### A decoder of string literals -/

/-- The value of a hexadecimal digit, of either case. -/
def hexVal (c : Nat) : Option Nat :=
  if 48 ≤ c ∧ c ≤ 57 then some (c - 48)
  else if 97 ≤ c ∧ c ≤ 102 then some (c - 87)
  else if 65 ≤ c ∧ c ≤ 70 then some (c - 55)
  else none

/-- The byte a two-character escape stands for. -/
def unescape (c : Nat) : Option Nat :=
  if c = 98 then some 8
  else if c = 102 then some 12
  else if c = 110 then some 10
  else if c = 114 then some 13
  else if c = 116 then some 9
  else if c = 34 then some 34
  else if c = 92 then some 92
  else if c = 47 then some 47
  else none

/-- The UTF-8 bytes of a code point below 0x10000. -/
def utf8 (cp : Nat) : List Nat :=
  if cp < 128 then [cp]
  else if cp < 2048 then [192 + cp / 64, 128 + cp % 64]
  else [224 + cp / 4096, 128 + cp / 64 % 64, 128 + cp % 64]

/-- Where the decoder stands inside a string literal: in plain text, after a
backslash, or after `\\u` with `k` hexadecimal digits read whose value is
`acc`. -/
inductive DecState where
  | text
  | escape
  | hex (k : Nat) (acc : Nat)
  deriving DecidableEq, Repr

/-- Put the decoded bytes `bs` in front of the result of the rest. -/
def decoded (bs : List Nat) (r : Option (List Nat × List Nat)) : Option (List Nat × List Nat) :=
  r.map (fun p => (bs ++ p.1, p.2))

/-- Decoding of the inside of a string literal, after its opening quote, one
byte at a time: the decoded bytes and what follows the closing quote; `none`
for a literal that is not closed, an unknown escape or a raw control
character. -/
def json_decode_body : DecState → List Nat → Option (List Nat × List Nat)
  | _, [] => none
  | .text, c :: r =>
    if c = 34 then some ([], r)
    else if c = 92 then json_decode_body .escape r
    else if c < 32 then none
    else decoded [c] (json_decode_body .text r)
  | .escape, e :: r =>
    if e = 117 then json_decode_body (.hex 0 0) r
    else
      match unescape e with
      | some b => decoded [b] (json_decode_body .text r)
      | none => none
  | .hex k acc, h :: r =>
    match hexVal h with
    | none => none
    | some v =>
      if k = 3 then decoded (utf8 (acc * 16 + v)) (json_decode_body .text r)
      else json_decode_body (.hex (k + 1) (acc * 16 + v)) r

/-- A generic decoder of one string literal at the head of `text`: the decoded
bytes and the rest of `text`. -/
def json_decode (text : List Nat) : Option (List Nat × List Nat) :=
  match text with
  | [] => none
  | c :: r => if c = 34 then json_decode_body .text r else none

/-! ### The netstring layout -/

/-- A value of type `int`. -/
def IsInt (v : Int) : Prop := -2 ^ 31 ≤ v ∧ v < 2 ^ 31

instance (v : Int) : Decidable (IsInt v) := by unfold IsInt; infer_instance

/-- The bytes of a field: those of its string, none for an absent field. -/
def field_value : Option (List Nat) → List Nat
  | some v => cstr v
  | none => []

/-- One segment `LEN:VALUE,`, `LEN` being the decimal length of `VALUE`. -/
def netstring (value : List Nat) : List Nat :=
  fmt_u value.length ++ lit ":" ++ value ++ lit ","

/-- The eleven values of the netstring payload, in their order. -/
def netstr_fields (edata : ErrorData) (env : Env) : List (List Nat) :=
  [fmt_d edata.elevel, fmt_d edata.sqlerrcode, field_value env.session.log_username,
   field_value env.session.log_database, field_value env.session.log_hostname,
   field_value edata.funcname, field_value edata.message, field_value edata.detail,
   field_value edata.hint, field_value edata.context, field_value env.debug_query_string]

/-- The segments of the values `vs`, one after the other. -/
def netstrings : List (List Nat) → List Nat
  | [] => []
  | v :: vs => netstring v ++ netstrings vs

/-- The netstring payload of a record and session identity. -/
def netstr_encoding (edata : ErrorData) (env : Env) : List Nat :=
  netstrings (netstr_fields edata env)

/-- The effect of one statement `len += NETSTR(...)` on the pair of the length
of the memory and `len`, for a segment of `n` bytes. -/
def netstr_extent (st : Nat × Nat) (n : Nat) : Nat × Nat :=
  (if size_left st.2 = 0 then st.1 else max st.1 (st.2 + (min (size_left st.2 - 1) n + 1)),
   st.2 + n)

/-! ### The severity table -/

/-- The syslog severity of a level by the first threshold of the ordered table
the level is at or below; `none` when no threshold matches. -/
def severity_of (lv : ElogLevels) (l : Int) : Option Int :=
  if l ≤ lv.DEBUG1 then some 7
  else if l ≤ lv.INFO then some 6
  else if l ≤ lv.NOTICE then some 5
  else if l ≤ lv.WARNING then some 4
  else if l ≤ lv.ERROR then some 3
  else if l ≤ lv.FATAL then some 2
  else if l ≤ lv.PANIC then some 0
  else none

/-- The levels are in their order. -/
def LevelsOrdered (lv : ElogLevels) : Prop :=
  lv.DEBUG1 < lv.INFO ∧ lv.INFO < lv.NOTICE ∧ lv.NOTICE < lv.WARNING ∧ lv.WARNING < lv.ERROR
    ∧ lv.ERROR < lv.FATAL ∧ lv.FATAL < lv.PANIC

instance (lv : ElogLevels) : Decidable (LevelsOrdered lv) := by
  unfold LevelsOrdered; infer_instance

/-! ### Dispatch -/

/-- The levels of `elog.h` in the PostgreSQL releases the module was written
for. -/
def pg_levels : ElogLevels :=
  { DEBUG1 := 14, INFO := 17, NOTICE := 18, WARNING := 19, ERROR := 20, FATAL := 21,
    PANIC := 22 }

/-- A backend without session identity or statement. -/
def bare_env : Env :=
  { session := { log_username := none, log_database := none, log_hostname := none },
    debug_query_string := none, my_hostname := lit "box", MyProcPid := 4711,
    levels := pg_levels,
    gmt := { tm_year := 112, tm_mon := 0, tm_mday := 31, tm_hour := 6, tm_min := 5, tm_sec := 4 } }

/-- A target with the given formatter, facility `local0` and no filter. -/
def sample_target (f : Formatter) : LogTarget :=
  { name := lit "t1", remote_ip := some (lit "127.0.0.1"), remote_port := 514, log_socket := 3,
    si_remote := { sin_family := 2, sin_port := 514, sin_addr := 2130706433 },
    log_format := none, syslog_facility := some (lit "local0"), facility_id := 16,
    min_elevel := 0, message_filter := none, format_payload := f }

/-- An `ERROR` whose message has 9000 bytes. -/
def overlong_record : ErrorData :=
  { elevel := 20, sqlerrcode := 0, message := some (List.replicate 9000 65), detail := none,
    hint := none, context := none, funcname := none }

/-- An `ERROR` with the message `disk full`. -/
def disk_full_record : ErrorData :=
  { elevel := 20, sqlerrcode := 2600, message := some (lit "disk full"), detail := none,
    hint := none, context := none, funcname := none }

/-- The statics before the first call: no session identity, a zeroed buffer. -/
def fresh_statics : Statics :=
  { session := { log_username := none, log_database := none, log_hostname := none },
    msgbuf := List.replicate MAX_MESSAGE_SIZE 0 }

/-! ### Cutting at the end of the buffer -/

/-- The function `f` appends `text` at the cursor cut to the room left: of
`text` the first `max - 1` bytes are written, whenever the cursor stands on a
terminator and the counter is not zero. -/
def AppendsCut (f : Cursor → Cursor) (text : List Nat) : Prop :=
  ∀ st, AtNul st → 0 < st.max → f st = st.put (text.take (st.max - 1))

/-- The appends of `format_json`, from the one of the opening brace to the one
of the closing brace, run from the cursor `st`. -/
def format_json_appends (st : Cursor) (edata : ErrorData) (env : Env) : Cursor :=
  let st := append_string st (some (lit "\x7b "))
  let st := append_json_string st (lit "username") env.session.log_username true
  let st := append_json_string st (lit "database") env.session.log_database true
  let st := append_json_string st (lit "remotehost") env.session.log_hostname true
  let st := append_json_string st (lit "debug_query_string") env.debug_query_string true
  let st := append_json_int st (lit "elevel") edata.elevel true
  let st := append_json_string st (lit "funcname") edata.funcname true
  let st := append_json_int st (lit "sqlerrcode") edata.sqlerrcode true
  let st := append_json_string st (lit "message") edata.message true
  let st := append_json_string st (lit "detail") edata.detail true
  let st := append_json_string st (lit "hint") edata.hint true
  let st := append_json_string st (lit "context") edata.context false
  append_string st (some (lit " \x7d"))

/-- A pair with a numeric value as `append_json_int` writes it: of the decimal
text the first seven characters. -/
def json_pair_int7 (key : String) (val : Int) : List Nat :=
  lit "\"" ++ lit key ++ lit "\"" ++ lit ": " ++ (fmt_d val).take 7

/-- The structured-text encoding of a record and session identity without a
bound on its length. -/
def json_text (edata : ErrorData) (env : Env) : List Nat :=
  lit "\x7b "
    ++ json_pair "username" env.session.log_username ++ lit ", "
    ++ json_pair "database" env.session.log_database ++ lit ", "
    ++ json_pair "remotehost" env.session.log_hostname ++ lit ", "
    ++ json_pair "debug_query_string" env.debug_query_string ++ lit ", "
    ++ json_pair_int7 "elevel" edata.elevel ++ lit ", "
    ++ json_pair "funcname" edata.funcname ++ lit ", "
    ++ json_pair_int7 "sqlerrcode" edata.sqlerrcode ++ lit ", "
    ++ json_pair "message" edata.message ++ lit ", "
    ++ json_pair "detail" edata.detail ++ lit ", "
    ++ json_pair "hint" edata.hint ++ lit ", "
    ++ json_pair "context" edata.context
    ++ lit " \x7d"

/-- The invariant of the appenders on the buffer of `MAX_MESSAGE_SIZE` bytes:
the memory is that of the buffer, the cursor stands on a terminator, offset and
counter add up to the size of the buffer and the counter is at least one. -/
def BufInv (st : Cursor) : Prop :=
  st.mem.length = MAX_MESSAGE_SIZE ∧ AtNul st ∧ st.dst + st.max = MAX_MESSAGE_SIZE ∧ 1 ≤ st.max

instance (st : Cursor) : Decidable (BufInv st) := by unfold BufInv; infer_instance

/-! ### Well-formed texts -/

/-- Where a scan of a text stands: outside the string literals, inside one in
plain text, after a backslash, or after `\\u` and `k` hexadecimal digits. -/
inductive ScanState where
  | outside
  | text
  | escape
  | hex (k : Nat)
  deriving DecidableEq, Repr

/-- The scan of a text from a state: the state at the end of the text, `none`
when a string literal holds an unknown or malformed escape or a raw control
character. -/
def json_scan : ScanState → List Nat → Option ScanState
  | st, [] => some st
  | .outside, c :: r => if c = 34 then json_scan .text r else json_scan .outside r
  | .text, c :: r =>
    if c = 34 then json_scan .outside r
    else if c = 92 then json_scan .escape r
    else if c < 32 then none
    else json_scan .text r
  | .escape, e :: r =>
    if e = 117 then json_scan (.hex 0) r
    else
      match unescape e with
      | some _ => json_scan .text r
      | none => none
  | .hex k, h :: r =>
    match hexVal h with
    | none => none
    | some _ => if k = 3 then json_scan .text r else json_scan (.hex (k + 1)) r

/-- A well-formed object literal: it begins with `\x7b ` and ends with ` \x7d`,
and its scan ends outside the string literals, every literal opened being
closed and every escape sequence whole. -/
def WellFormedObject (text : List Nat) : Prop :=
  lit "\x7b " <+: text ∧ lit " \x7d" <:+ text ∧ json_scan .outside text = some .outside

/-- The text `p` leaves a scan outside the string literals where it was. -/
def Neutral (p : List Nat) : Prop :=
  ∀ r, json_scan .outside (p ++ r) = json_scan .outside r

/-- The beginning of the encoding of `overlong_record` without session
identity, up to the opening quote of the message. -/
def overlong_head : List Nat :=
  lit ("\x7b \"username\": null, \"database\": null, \"remotehost\": null, "
    ++ "\"debug_query_string\": null, \"elevel\": 20, \"funcname\": null, "
    ++ "\"sqlerrcode\": 0, \"message\": \"")

/-! ### Texts of the `snprintf` formatters -/

/-- The memory holds, from its start, the first `MAX_MESSAGE_SIZE - 1` bytes of
`text` and a terminator. -/
def Terminated (mem text : List Nat) : Prop :=
  ∃ rest, mem = text.take (MAX_MESSAGE_SIZE - 1) ++ 0 :: rest

/-- The text `format_syslog` builds, without bound on its length. -/
def syslog_text (target : LogTarget) (edata : ErrorData) (env : Env) : List Nat :=
  syslog_header target edata env ++ (lit "-" ++ lit " ") ++ fmt_s edata.message

/-! ### The syslog line -/

/-- The two decimal digits of a number below 100. -/
def two_digits (n : Nat) : List Nat := [48 + n / 10, 48 + n % 10]

/-- The time stamp of the syslog line: the year, `-`, month, `-`, day, `-`, the
day again, `T`, hour, `:`, minute, `:`, second, `Z`, the year in decimal and
the other fields in two digits. -/
def syslog_timestamp (gmt : Tm) : List Nat :=
  fmt_u (gmt.tm_year + 1900) ++ lit "-" ++ two_digits (gmt.tm_mon + 1) ++ lit "-"
    ++ two_digits gmt.tm_mday ++ lit "-" ++ two_digits gmt.tm_mday ++ lit "T"
    ++ two_digits gmt.tm_hour ++ lit ":" ++ two_digits gmt.tm_min ++ lit ":"
    ++ two_digits gmt.tm_sec ++ lit "Z"

/-- A result of `gmtime`: the year fits an `int` and the other fields are in
their ranges. -/
def ValidTm (gmt : Tm) : Prop :=
  gmt.tm_year + 1900 < 2 ^ 31 ∧ gmt.tm_mon < 12 ∧ gmt.tm_mday ≤ 31 ∧ gmt.tm_hour < 24
    ∧ gmt.tm_min < 60 ∧ gmt.tm_sec ≤ 60

instance (gmt : Tm) : Decidable (ValidTm gmt) := by unfold ValidTm; infer_instance

/-- The line `<PRI>1 TS HOST postgres PID - - MESSAGE`. -/
def syslog_line (pri : Int) (ts host : List Nat) (pid : Int) (message : List Nat) : List Nat :=
  lit "<" ++ fmt_d pri ++ lit ">1 " ++ ts ++ lit " " ++ host ++ lit " postgres " ++ fmt_d pid
    ++ lit " - - " ++ message

/-! ### A parser of netstrings -/

/-- Read decimal digits up to a colon: the number read, `acc` being the value
of the digits before, and what follows the colon. -/
def read_length : List Nat → Nat → Option (Nat × List Nat)
  | [], _ => none
  | c :: r, acc =>
    if c = 58 then some (acc, r)
    else if 48 ≤ c ∧ c ≤ 57 then read_length r (acc * 10 + (c - 48))
    else none

/-- Parse one netstring at the head of `text`: decimal digits up to `:`, that
many bytes, then `,`; the value and the rest of `text`. -/
def netstr_parse_one (text : List Nat) : Option (List Nat × List Nat) :=
  match text with
  | [] => none
  | c :: _ =>
    if 48 ≤ c ∧ c ≤ 57 then
      match read_length text 0 with
      | none => none
      | some (n, r) => if r[n]? = some 44 then some (r.take n, r.drop (n + 1)) else none
    else none

/-- Parse netstrings until `text` is used up, at most `fuel` of them. -/
def netstr_parse_all : Nat → List Nat → Option (List (List Nat))
  | _, [] => some []
  | 0, _ :: _ => none
  | fuel + 1, c :: r =>
    match netstr_parse_one (c :: r) with
    | none => none
    | some (v, rest) => (netstr_parse_all fuel rest).map (fun vs => v :: vs)

/-- Parse a text made of netstrings into their values. -/
def netstr_parse (text : List Nat) : Option (List (List Nat)) :=
  netstr_parse_all text.length text

/-! ### The example of the timeout filter -/

/-- A backend without connection whose sends succeed. -/
def quiet_host : Host :=
  { MyProcPort := none, debug_query_string := none, my_hostname := lit "box",
    MyProcPid := 4711, levels := pg_levels, clock := fun _ => bare_env.gmt,
    sendto_result := fun _ => 0 }

/-- A netstring target with minimum level 0 and the filter `timeout`. -/
def timeout_target : LogTarget :=
  { name := lit "t1", remote_ip := some (lit "127.0.0.1"), remote_port := 514, log_socket := 3,
    si_remote := { sin_family := 2, sin_port := 514, sin_addr := 2130706433 },
    log_format := some (lit "netstr"), syslog_facility := none, facility_id := -1,
    min_elevel := 0, message_filter := some (lit "timeout"), format_payload := .format_netstr }

/-- An `ERROR` with the message `connection timeout`. -/
def timeout_record : ErrorData :=
  { elevel := 20, sqlerrcode := 0, message := some (lit "connection timeout"), detail := none,
    hint := none, context := none, funcname := none }

/-- An `ERROR` with the message `ok`. -/
def ok_record : ErrorData :=
  { elevel := 20, sqlerrcode := 0, message := some (lit "ok"), detail := none,
    hint := none, context := none, funcname := none }

/-- The target of a name whose body of the loop ends by appending it. -/
def appended : InitStep → Option LogTarget
  | .append target => some target
  | _ => none

/-- An `ERROR` whose message is 8043 bytes `A` and a newline: the escape of the
newline falls on the last byte `format_json` has room for. -/
def cut_escape_record : ErrorData :=
  { overlong_record with message := some (List.replicate 8043 65 ++ [10]) }

/-! # Theorems -/

/-! ## C strings -/

theorem cstr_nul_free (s : List Nat) : ∀ b ∈ cstr s, b ≠ 0 := by
  induction s with
  | nil => simp [cstr]
  | cons c r ih =>
    by_cases h : c = 0
    · simp [cstr, h]
    · simp only [cstr, h, if_false, List.mem_cons]
      rintro b (rfl | hb)
      · exact h
      · exact ih b hb

theorem cstr_append_nul (w rest : List Nat) (hw : ∀ b ∈ w, b ≠ 0) :
    cstr (w ++ 0 :: rest) = w := by
  induction w with
  | nil => simp [cstr]
  | cons c r ih =>
    have hc : c ≠ 0 := hw c (by simp)
    have := ih (fun b hb => hw b (by simp [hb]))
    simp [cstr, hc, this]

theorem cstr_of_nul_free (w : List Nat) (hw : ∀ b ∈ w, b ≠ 0) : cstr w = w := by
  induction w with
  | nil => simp [cstr]
  | cons c r ih =>
    have hc : c ≠ 0 := hw c (by simp)
    simp only [cstr, hc, if_false]
    rw [ih (fun b hb => hw b (by simp [hb]))]

theorem cstr_append (w rest : List Nat) (hw : ∀ b ∈ w, b ≠ 0) :
    cstr (w ++ rest) = w ++ cstr rest := by
  induction w with
  | nil => simp
  | cons c r ih =>
    have hc : c ≠ 0 := hw c (by simp)
    have := ih (fun b hb => hw b (by simp [hb]))
    simp [cstr, hc, this]

theorem cstr_cstr (s : List Nat) : cstr (cstr s) = cstr s :=
  cstr_of_nul_free _ (cstr_nul_free s)

theorem strlen_zero_cons (rest : List Nat) : strlen (0 :: rest) = 0 := by
  simp [strlen, cstr]

/-! ## Stores -/

theorem store_of_le (mem : List Nat) (i : Nat) (bs : List Nat) (h : i ≤ mem.length) :
    store mem i bs = mem.take i ++ bs ++ mem.drop (i + bs.length) := by
  simp [store, Nat.sub_eq_zero_of_le h]

theorem length_store (mem : List Nat) (i : Nat) (bs : List Nat) :
    (store mem i bs).length = max mem.length (i + bs.length) := by
  simp only [store, List.length_append, List.length_take, List.length_replicate,
    List.length_drop]
  omega

theorem take_append_of_length {p q : List Nat} {n : Nat} (h : p.length = n) :
    (p ++ q).take n = p := by
  subst h; simp

theorem drop_append_of_length {p q : List Nat} {n : Nat} (k : Nat) (h : p.length = n) :
    (p ++ q).drop (n + k) = q.drop k := by
  subst h; simp

/-- Two consecutive terminated stores are one store of the concatenation. -/
theorem store_store (mem : List Nat) (d : Nat) (a b : List Nat) (h : d ≤ mem.length) :
    store (store mem d (a ++ [0])) (d + a.length) (b ++ [0]) = store mem d (a ++ b ++ [0]) := by
  have hl : d + a.length ≤ (store mem d (a ++ [0])).length := by
    rw [length_store]; simp
  rw [store_of_le _ _ _ hl, store_of_le _ _ _ h, store_of_le _ _ _ h]
  have hlen : (List.take d mem ++ a).length = d + a.length := by simp [h]
  have e1 : (List.take d mem ++ (a ++ [0]) ++ List.drop (d + (a ++ [0]).length) mem)
      = (List.take d mem ++ a) ++ (0 :: List.drop (d + (a ++ [0]).length) mem) := by
    simp
  rw [e1, take_append_of_length hlen, drop_append_of_length _ hlen]
  simp [Nat.add_assoc, Nat.add_comm 1]

/-! ## The cursor -/

theorem drop_of_atNul {st : Cursor} (h : AtNul st) :
    st.mem.drop st.dst = 0 :: st.mem.drop (st.dst + 1) := by
  unfold AtNul at h
  obtain ⟨hlt, hv⟩ := List.getElem?_eq_some_iff.mp h
  rw [List.drop_eq_getElem_cons hlt, hv]

theorem dst_lt_of_atNul {st : Cursor} (h : AtNul st) : st.dst < st.mem.length := by
  unfold AtNul at h
  exact (List.getElem?_eq_some_iff.mp h).1

theorem strncat_of_atNul {st : Cursor} (h : AtNul st) (src : List Nat) (n : Nat) :
    strncat st.mem st.dst src n = store st.mem st.dst ((cstr src).take n ++ [0]) := by
  simp [strncat, drop_of_atNul h, strlen_zero_cons]

/-- With room left `append_string` writes the first `max - 1` bytes of the
source at the cursor, terminates them and moves the cursor and the counter by
the number of bytes written. -/
theorem append_string_eq {st : Cursor} (h : AtNul st) (hmax : 0 < st.max) (s : List Nat) :
    append_string st (some s) = st.put ((cstr s).take (st.max - 1)) := by
  have hne : st.max ≠ 0 := by omega
  simp only [append_string, hne, if_false, strncat_of_atNul h, Cursor.put, strlen]
  by_cases hl : (cstr s).length ≥ st.max
  · simp only [hl, if_true, List.length_take]
    have : min (st.max - 1) (cstr s).length = st.max - 1 := by omega
    simp [this]
  · simp only [hl, if_false, List.length_take]
    have h1 : min (st.max - 1) (cstr s).length = (cstr s).length := by omega
    have h2 : (cstr s).take (cstr s).length = cstr s := List.take_length _
    have h3 : (cstr s).take (st.max - 1) = cstr s := List.take_of_length_le (by omega)
    simp [h1, h2, h3]

theorem atNul_put {st : Cursor} (h : AtNul st) (text : List Nat) : AtNul (st.put text) := by
  have hd := dst_lt_of_atNul h
  unfold AtNul Cursor.put
  simp only
  rw [store_of_le _ _ _ (Nat.le_of_lt hd)]
  have hlen : (List.take st.dst st.mem ++ text).length = st.dst + text.length := by
    simp [Nat.le_of_lt hd]
  have : List.take st.dst st.mem ++ (text ++ [0]) ++ List.drop (st.dst + (text ++ [0]).length) st.mem
      = (List.take st.dst st.mem ++ text) ++ 0 :: List.drop (st.dst + (text ++ [0]).length) st.mem := by
    simp
  rw [this, List.getElem?_append_right (by omega)]
  simp [hlen]

theorem put_put {st : Cursor} (h : AtNul st) (a b : List Nat) :
    (st.put a).put b = st.put (a ++ b) := by
  simp only [Cursor.put, store_store _ _ _ _ (Nat.le_of_lt (dst_lt_of_atNul h)),
    List.length_append]
  simp [Nat.add_assoc, Nat.sub_sub]

theorem put_nil {st : Cursor} (h : AtNul st) : st.put [] = st := by
  have hd := dst_lt_of_atNul h
  have hdrop := drop_of_atNul h
  cases st with
  | mk mem dst max =>
    simp only [Cursor.put, List.nil_append, List.length_nil, Nat.add_zero, Nat.sub_zero]
    simp only at hd hdrop
    congr 1
    rw [store_of_le _ _ _ (Nat.le_of_lt hd)]
    simp only [List.length_singleton, List.append_assoc, List.singleton_append]
    rw [← hdrop, List.take_append_drop]

/-! ## Appending in full -/

theorem appends_append_string (s : List Nat) :
    Appends (fun st => append_string st (some s)) (cstr s) := by
  intro st h hcap
  have hmax : 0 < st.max := by omega
  show append_string st (some s) = _
  rw [append_string_eq h hmax, List.take_of_length_le (by omega)]

theorem appends_comp {f g : Cursor → Cursor} {a b : List Nat}
    (hf : Appends f a) (hg : Appends g b) : Appends (fun st => g (f st)) (a ++ b) := by
  intro st h hcap
  rw [List.length_append] at hcap
  show g (f st) = _
  rw [hf st h (by omega), hg _ (atNul_put h a) (by simp only [Cursor.put]; omega), put_put h]

theorem appends_id : Appends (fun st => st) [] := by
  intro st h _
  exact (put_nil h).symm

theorem appends_congr {f : Cursor → Cursor} {a b : List Nat} (hf : Appends f a) (hab : a = b) :
    Appends f b := hab ▸ hf

theorem escape_u_text (c : Nat) (h0 : c ≠ 0) (hc : c < 32) :
    cstr (snprintf_local 16 (lit "\\u" ++ fmt_04x c))
      = lit "\\u00" ++ [hexDigit (c / 16), hexDigit (c % 16)] := by
  interval_cases c <;> first | exact absurd rfl h0 | decide

theorem appends_escape_json_char (c : Nat) (h0 : c ≠ 0) :
    Appends (fun st => escape_json_char st c) (json_image c) := by
  unfold escape_json_char json_image
  split_ifs with h1 h2 h3 h4 h5 h6 h7 h8
  all_goals first
    | exact appends_congr (appends_append_string _) (by decide)
    | exact appends_congr (appends_append_string _) (escape_u_text c h0 h8)
    | exact appends_congr (appends_append_string _) (by simp [cstr, h0])

theorem appends_escape_json_loop (s : List Nat) :
    Appends (fun st => escape_json_loop st s) (json_escape (cstr s)) := by
  induction s with
  | nil => exact appends_id
  | cons c r ih =>
    by_cases h0 : c = 0
    · simp only [escape_json_loop, h0, if_true, cstr, json_escape]
      exact appends_id
    · simp only [escape_json_loop, h0, if_false, cstr, json_escape]
      exact appends_comp (appends_escape_json_char c h0) ih

theorem appends_escape_json (s : List Nat) :
    Appends (fun st => escape_json st s) (json_quote (cstr s)) := by
  unfold escape_json json_quote
  exact appends_comp (appends_comp (appends_congr (appends_append_string _) (by decide))
    (appends_escape_json_loop s)) (appends_congr (appends_append_string _) (by decide))

/-! ## NUL-free texts -/

theorem nulFree_append {a b : List Nat} (ha : NulFree a) (hb : NulFree b) : NulFree (a ++ b) := by
  intro x hx
  rcases List.mem_append.mp hx with h | h
  · exact ha x h
  · exact hb x h

theorem nulFree_cstr (s : List Nat) : NulFree (cstr s) := cstr_nul_free s

theorem nulFree_take {a : List Nat} (n : Nat) (ha : NulFree a) : NulFree (a.take n) :=
  fun x hx => ha x (List.mem_of_mem_take hx)

theorem nulFree_digitsAux (base : Nat) (digit : Nat → Nat) (hd : ∀ d, digit d ≠ 0) :
    ∀ (fuel n : Nat) (acc : List Nat), NulFree acc → NulFree (digitsAux base digit fuel n acc) := by
  intro fuel
  induction fuel with
  | zero => intro n acc h; simpa [digitsAux] using h
  | succ k ih =>
    intro n acc h
    unfold digitsAux
    split_ifs
    · intro x hx
      rcases List.mem_cons.mp hx with rfl | hx
      · exact hd _
      · exact h x hx
    · apply ih
      intro x hx
      rcases List.mem_cons.mp hx with rfl | hx
      · exact hd _
      · exact h x hx

theorem nulFree_fmt_u (n : Nat) : NulFree (fmt_u n) :=
  nulFree_digitsAux 10 decDigit (fun d => by simp [decDigit]) _ _ _ (by simp [NulFree])

theorem nulFree_fmt_d (v : Int) : NulFree (fmt_d v) := by
  unfold fmt_d
  split_ifs
  · intro x hx
    rcases List.mem_cons.mp hx with rfl | hx
    · decide
    · exact nulFree_fmt_u _ x hx
  · exact nulFree_fmt_u _

theorem hexDigit_ne_zero (d : Nat) : hexDigit d ≠ 0 := by
  unfold hexDigit; split_ifs <;> omega

theorem nulFree_json_image (b : Nat) (hb : b ≠ 0) : NulFree (json_image b) := by
  unfold json_image
  split_ifs
  all_goals first
    | decide
    | (intro x hx; simp only [List.mem_singleton] at hx; subst hx; exact hb)
    | (apply nulFree_append (by decide)
       intro x hx
       simp only [List.mem_cons, List.mem_singleton, List.not_mem_nil, or_false] at hx
       rcases hx with rfl | rfl <;> exact hexDigit_ne_zero _)

theorem nulFree_json_escape (s : List Nat) (hs : NulFree s) : NulFree (json_escape s) := by
  induction s with
  | nil => simp [json_escape, NulFree]
  | cons b r ih =>
    simp only [json_escape]
    exact nulFree_append (nulFree_json_image b (hs b (by simp)))
      (ih (fun x hx => hs x (by simp [hx])))

theorem nulFree_json_quote (s : List Nat) (hs : NulFree s) : NulFree (json_quote s) :=
  nulFree_append (nulFree_append (by decide) (nulFree_json_escape s hs)) (by decide)

theorem nulFree_json_value (v : Option (List Nat)) : NulFree (json_value v) := by
  cases v with
  | none => decide
  | some s => exact nulFree_json_quote _ (nulFree_cstr s)

/-! ## The key/value helpers and `format_json` -/

theorem appends_append_json_string (key : List Nat) (val : Option (List Nat)) (addComma : Bool) :
    Appends (fun st => append_json_string st key val addComma)
      (json_quote (cstr key) ++ lit ": " ++ json_value val
        ++ (if addComma then lit ", " else [])) := by
  have hval : Appends (fun st => match val with
      | some v => escape_json st v
      | none => append_string st (some (lit "null"))) (json_value val) := by
    cases val with
    | none => exact appends_congr (appends_append_string _) (by decide)
    | some v => exact appends_escape_json v
  have h3 := appends_comp (appends_comp (appends_escape_json key)
    (appends_congr (appends_append_string (lit ": ")) (by decide : cstr (lit ": ") = lit ": "))) hval
  cases addComma with
  | false =>
    simp only [Bool.false_eq_true, if_false, List.append_nil]
    exact h3
  | true =>
    simp only [if_true]
    exact appends_comp h3 (appends_congr (appends_append_string (lit ", ")) (by decide))

theorem appends_append_json_int (key : List Nat) (val : Int) (addComma : Bool) :
    Appends (fun st => append_json_int st key val addComma)
      (json_quote (cstr key) ++ lit ": " ++ (fmt_d val).take (SIZEOF_PTR - 1)
        ++ (if addComma then lit ", " else [])) := by
  have hint : Appends (fun st => append_string st (some (snprintf_local SIZEOF_PTR (fmt_d val))))
      ((fmt_d val).take (SIZEOF_PTR - 1)) :=
    appends_congr (appends_append_string _)
      (cstr_of_nul_free _ (nulFree_take _ (nulFree_fmt_d val)))
  have h3 := appends_comp (appends_comp (appends_escape_json key)
    (appends_congr (appends_append_string (lit ": ")) (by decide : cstr (lit ": ") = lit ": "))) hint
  cases addComma with
  | false =>
    simp only [Bool.false_eq_true, if_false, List.append_nil]
    exact h3
  | true =>
    simp only [if_true]
    exact appends_comp h3 (appends_congr (appends_append_string (lit ", ")) (by decide))

theorem cstr_store_zero (mem text : List Nat) (h : NulFree text) :
    cstr (store mem 0 (text ++ [0])) = text := by
  have : store mem 0 (text ++ [0]) = text ++ 0 :: mem.drop (0 + (text ++ [0]).length) := by
    simp [store]
  rw [this, cstr_append_nul _ _ h]

theorem atNul_start (msgbuf : List Nat) (max : Nat) :
    AtNul { mem := store msgbuf 0 [0], dst := 0, max := max } := by
  simp [AtNul, store]

theorem store_start (msgbuf text : List Nat) :
    store (store msgbuf 0 [0]) 0 (text ++ [0]) = store msgbuf 0 (text ++ [0]) := by
  simp only [store, List.take_zero, Nat.zero_sub, List.replicate_zero, List.nil_append,
    List.length_append, List.length_singleton, Nat.zero_add, List.length_nil, List.drop_append_eq_append_drop]
  simp

theorem nulFree_json_object (edata : ErrorData) (env : Env) : NulFree (json_object edata env) := by
  unfold json_object json_pair json_pair_int
  repeat' apply nulFree_append
  all_goals first
    | exact nulFree_json_value _
    | exact nulFree_fmt_d _
    | decide

/-- The text `format_json` builds when nothing is cut. -/
theorem format_json_eq_put (msgbuf : List Nat) (target : LogTarget) (edata : ErrorData)
    (env : Env) (h1 : (fmt_d edata.elevel).length ≤ 7) (h2 : (fmt_d edata.sqlerrcode).length ≤ 7)
    (hlen : (json_object edata env).length < MAX_MESSAGE_SIZE) :
    format_json msgbuf target edata env = store msgbuf 0 (json_object edata env ++ [0]) := by
  have t1 : (fmt_d edata.elevel).take (SIZEOF_PTR - 1) = fmt_d edata.elevel :=
    List.take_of_length_le h1
  have t2 : (fmt_d edata.sqlerrcode).take (SIZEOF_PTR - 1) = fmt_d edata.sqlerrcode :=
    List.take_of_length_le h2
  have chain :=
    appends_comp (appends_comp (appends_comp (appends_comp (appends_comp (appends_comp
    (appends_comp (appends_comp (appends_comp (appends_comp (appends_comp (appends_comp
      (appends_congr (appends_append_string (lit "\x7b ")) (by decide : _ = lit "\x7b "))
      (appends_append_json_string (lit "username") env.session.log_username true))
      (appends_append_json_string (lit "database") env.session.log_database true))
      (appends_append_json_string (lit "remotehost") env.session.log_hostname true))
      (appends_append_json_string (lit "debug_query_string") env.debug_query_string true))
      (appends_append_json_int (lit "elevel") edata.elevel true))
      (appends_append_json_string (lit "funcname") edata.funcname true))
      (appends_append_json_int (lit "sqlerrcode") edata.sqlerrcode true))
      (appends_append_json_string (lit "message") edata.message true))
      (appends_append_json_string (lit "detail") edata.detail true))
      (appends_append_json_string (lit "hint") edata.hint true))
      (appends_append_json_string (lit "context") edata.context false))
      (appends_congr (appends_append_string (lit " \x7d")) (by decide : _ = lit " \x7d"))
  have k1 : json_quote (cstr (lit "username")) = lit "\"" ++ lit "username" ++ lit "\"" := by decide
  have k2 : json_quote (cstr (lit "database")) = lit "\"" ++ lit "database" ++ lit "\"" := by decide
  have k3 : json_quote (cstr (lit "remotehost")) = lit "\"" ++ lit "remotehost" ++ lit "\"" := by
    decide
  have k4 : json_quote (cstr (lit "debug_query_string"))
      = lit "\"" ++ lit "debug_query_string" ++ lit "\"" := by decide
  have k5 : json_quote (cstr (lit "elevel")) = lit "\"" ++ lit "elevel" ++ lit "\"" := by decide
  have k6 : json_quote (cstr (lit "funcname")) = lit "\"" ++ lit "funcname" ++ lit "\"" := by decide
  have k7 : json_quote (cstr (lit "sqlerrcode")) = lit "\"" ++ lit "sqlerrcode" ++ lit "\"" := by
    decide
  have k8 : json_quote (cstr (lit "message")) = lit "\"" ++ lit "message" ++ lit "\"" := by decide
  have k9 : json_quote (cstr (lit "detail")) = lit "\"" ++ lit "detail" ++ lit "\"" := by decide
  have k10 : json_quote (cstr (lit "hint")) = lit "\"" ++ lit "hint" ++ lit "\"" := by decide
  have k11 : json_quote (cstr (lit "context")) = lit "\"" ++ lit "context" ++ lit "\"" := by decide
  rw [k1, k2, k3, k4, k5, k6, k7, k8, k9, k10, k11, t1, t2] at chain
  simp only [if_true, Bool.false_eq_true, if_false, List.append_nil] at chain
  have chain2 := appends_congr chain (b := json_object edata env)
    (by simp only [json_object, json_pair, json_pair_int, List.append_assoc])
  have := chain2 { mem := store msgbuf 0 [0], dst := 0, max := MAX_MESSAGE_SIZE }
    (atNul_start _ _) hlen
  have hmem := congrArg Cursor.mem this
  simp only [Cursor.put] at hmem
  rw [store_start] at hmem
  exact hmem

theorem take_put {st : Cursor} (h : AtNul st) (text : List Nat) :
    (st.put text).mem.take st.dst = st.mem.take st.dst := by
  have hd := Nat.le_of_lt (dst_lt_of_atNul h)
  simp only [Cursor.put]
  rw [store_of_le _ _ _ hd, List.append_assoc, take_append_of_length (by simp [hd])]

theorem cstr_drop_put {st : Cursor} (h : AtNul st) (text : List Nat) (ht : NulFree text) :
    cstr ((st.put text).mem.drop st.dst) = text := by
  have hd := Nat.le_of_lt (dst_lt_of_atNul h)
  simp only [Cursor.put]
  rw [store_of_le _ _ _ hd, List.append_assoc]
  have := drop_append_of_length (p := List.take st.dst st.mem)
    (q := (text ++ [0]) ++ List.drop (st.dst + (text ++ [0]).length) st.mem) (n := st.dst) 0
    (by simp [hd])
  rw [Nat.add_zero, List.drop_zero] at this
  rw [this, List.append_assoc]
  exact cstr_append_nul _ _ ht

/-- C7: on a cursor standing on a terminator with room for the whole literal,
`escape_json` of a NUL-free `s` writes at the cursor a double quote, the image
of each byte of `s` in order (`json_image`: the seven two-character escapes,
`\u00XX` for the other bytes below 0x20, every other byte unchanged) and a
double quote, leaves what precedes the cursor alone and moves the cursor and
the counter by the length of the literal. -/
theorem escape_json_writes_literal (st : Cursor) (s : List Nat) (hst : AtNul st)
    (hs : NulFree s) (hcap : (json_quote s).length < st.max) :
    cstr ((escape_json st s).mem.drop st.dst) = lit "\"" ++ json_escape s ++ lit "\""
      ∧ (escape_json st s).mem.take st.dst = st.mem.take st.dst
      ∧ (escape_json st s).dst = st.dst + (json_quote s).length
      ∧ (escape_json st s).max = st.max - (json_quote s).length
      ∧ (escape_json st s).mem = store st.mem st.dst (json_quote s ++ [0]) := by
  have hc : cstr s = s := cstr_of_nul_free s hs
  have h := appends_escape_json s st hst (by rw [hc]; exact hcap)
  rw [hc] at h
  simp only at h
  rw [h]
  exact ⟨cstr_drop_put hst _ (nulFree_json_quote s hs), take_put hst _, rfl, rfl, rfl⟩

theorem escape_json_writes_literal_witness :
    cstr ((escape_json ⟨[0, 0, 0, 0, 0, 0, 0, 0, 0, 0, 0, 0, 0, 0, 0, 0], 0, 16⟩
        [97, 34, 10, 1, 200]).mem.drop 0)
      = lit "\"a\\\"\\n\\u0001" ++ [200] ++ lit "\"" :=
  (escape_json_writes_literal ⟨[0, 0, 0, 0, 0, 0, 0, 0, 0, 0, 0, 0, 0, 0, 0, 0], 0, 16⟩
    [97, 34, 10, 1, 200] (by decide) (by decide) (by decide)).1.trans (by decide)

/-- C3: when the decimal texts of `elevel` and `sqlerrcode` have at most seven
characters and the object literal of the record and session is shorter than
the buffer, `format_json` returns exactly that literal: `json_object`, the
eleven pairs in their order between the braces, separated by `, `. -/
theorem format_json_returns_object (msgbuf : List Nat) (target : LogTarget) (edata : ErrorData)
    (env : Env) (h1 : (fmt_d edata.elevel).length ≤ 7) (h2 : (fmt_d edata.sqlerrcode).length ≤ 7)
    (hlen : (json_object edata env).length < MAX_MESSAGE_SIZE) :
    cstr (format_json msgbuf target edata env) = json_object edata env := by
  rw [format_json_eq_put msgbuf target edata env h1 h2 hlen]
  exact cstr_store_zero _ _ (nulFree_json_object edata env)

set_option maxRecDepth 20000 in
theorem format_json_returns_object_witness :
    (fmt_d (20 : Int)).length ≤ 7 ∧ (fmt_d (2600 : Int)).length ≤ 7
      ∧ cstr (format_json (List.replicate 8192 0)
          ⟨lit "t1", some (lit "10.0.0.1"), 514, 3, ⟨2, 514, 167772161⟩, some (lit "json"), none,
            -1, 19, none, .format_json⟩
          ⟨20, 2600, some (lit "disk full"), none, some (lit "a\tb"), none, some (lit "f")⟩
          ⟨⟨some (lit "alice"), some (lit "db"), none⟩, some (lit "select 1"), lit "box", 77,
            ⟨14, 17, 18, 19, 20, 21, 22⟩, ⟨124, 9, 31, 6, 5, 4⟩⟩)
        = lit ("\x7b \"username\": \"alice\", \"database\": \"db\", \"remotehost\": null, "
            ++ "\"debug_query_string\": \"select 1\", \"elevel\": 20, \"funcname\": \"f\", "
            ++ "\"sqlerrcode\": 2600, \"message\": \"disk full\", \"detail\": null, "
            ++ "\"hint\": \"a\\tb\", \"context\": null \x7d") :=
  ⟨by decide, by decide,
    (format_json_returns_object _ _ _ _ (by decide) (by decide) (by decide)).trans (by decide)⟩

/-- C6: with the packed SQLSTATE 16908420 and room to spare, `append_json_int`
appends the key, `: ` and only the first seven digits `1690842` of the
value. -/
theorem append_json_int_cuts_value :
    cstr (append_json_int ⟨List.replicate 32 0, 0, 32⟩ (lit "sqlerrcode") 16908420 true).mem
        = lit "\"sqlerrcode\": 1690842, "
      ∧ fmt_d 16908420 = lit "16908420" := by
  refine ⟨?_, by decide⟩
  have hst : AtNul ⟨List.replicate 32 0, 0, 32⟩ := by decide
  have h := appends_append_json_int (lit "sqlerrcode") 16908420 true ⟨List.replicate 32 0, 0, 32⟩ hst (by decide)
  rw [show append_json_int _ _ _ _ = _ from h]
  have := cstr_drop_put hst (json_quote (cstr (lit "sqlerrcode")) ++ lit ": "
    ++ (fmt_d 16908420).take (SIZEOF_PTR - 1) ++ (if true = true then lit ", " else []))
    (by decide)
  rw [List.drop_zero] at this
  rw [this]
  decide

/-! ## Decoding what `escape_json` writes -/

theorem lit_quote : lit "\"" = [34] := by decide

theorem json_decode_body_image (b : Nat) (hb : b ≠ 0) (tail : List Nat) :
    json_decode_body .text (json_image b ++ tail)
      = decoded [b] (json_decode_body .text tail) := by
  unfold json_image
  split_ifs with h1 h2 h3 h4 h5 h6 h7 h8
  · subst h1; rw [show lit "\\b" = [92, 98] by decide]; simp [json_decode_body, unescape]
  · subst h2; rw [show lit "\\f" = [92, 102] by decide]; simp [json_decode_body, unescape]
  · subst h3; rw [show lit "\\n" = [92, 110] by decide]; simp [json_decode_body, unescape]
  · subst h4; rw [show lit "\\r" = [92, 114] by decide]; simp [json_decode_body, unescape]
  · subst h5; rw [show lit "\\t" = [92, 116] by decide]; simp [json_decode_body, unescape]
  · subst h6; rw [show lit "\\\"" = [92, 34] by decide]; simp [json_decode_body, unescape]
  · subst h7; rw [show lit "\\\\" = [92, 92] by decide]; simp [json_decode_body, unescape]
  · rw [show lit "\\u00" = [92, 117, 48, 48] by decide]
    interval_cases b <;>
      first
        | exact absurd rfl hb
        | exact absurd rfl h1
        | exact absurd rfl h2
        | exact absurd rfl h3
        | exact absurd rfl h4
        | exact absurd rfl h5
        | simp [json_decode_body, hexVal, hexDigit, utf8]
  · have h32 : ¬ b < 32 := h8
    simp [json_decode_body, h6, h7, h32]

theorem json_decode_body_escape (s : List Nat) (hs : NulFree s) (rest : List Nat) :
    json_decode_body .text (json_escape s ++ 34 :: rest) = some (s, rest) := by
  induction s with
  | nil => simp [json_escape, json_decode_body]
  | cons b r ih =>
    simp only [json_escape, List.append_assoc]
    rw [json_decode_body_image b (hs b (by simp)), ih (fun x hx => hs x (by simp [hx]))]
    rfl

theorem json_decode_quote (s : List Nat) (hs : NulFree s) (rest : List Nat) :
    json_decode (json_quote s ++ rest) = some (s, rest) := by
  unfold json_quote
  rw [lit_quote]
  simp only [List.singleton_append, List.cons_append, List.append_assoc, json_decode, if_true]
  exact json_decode_body_escape s hs rest

theorem json_quote_injective (s1 s2 : List Nat) (h1 : NulFree s1) (h2 : NulFree s2)
    (h : json_quote s1 = json_quote s2) : s1 = s2 := by
  have e1 := json_decode_quote s1 h1 []
  have e2 := json_decode_quote s2 h2 []
  rw [h, e2] at e1
  simpa using e1.symm

/-- C8: on a cursor standing on a terminator with room for the literal, the
text `escape_json` writes for a NUL-free `s`, followed by anything, is decoded
by the string-literal decoder `json_decode` to `s` with exactly that text
consumed; and two NUL-free strings for which `escape_json` gives the same
result are equal. -/
theorem escape_json_round_trip (st : Cursor) (s : List Nat) (hst : AtNul st)
    (hs : NulFree s) (hcap : (json_quote s).length < st.max) :
    (∀ rest, json_decode (cstr ((escape_json st s).mem.drop st.dst) ++ rest) = some (s, rest))
      ∧ (∀ s2, NulFree s2 → (json_quote s2).length < st.max →
          escape_json st s2 = escape_json st s → s2 = s) := by
  have key : ∀ u, NulFree u → (json_quote u).length < st.max →
      cstr ((escape_json st u).mem.drop st.dst) = json_quote u := by
    intro u hu hc
    have hcu : cstr u = u := cstr_of_nul_free u hu
    have h := appends_escape_json u st hst (by rw [hcu]; exact hc)
    rw [hcu] at h
    rw [show escape_json st u = _ from h]
    exact cstr_drop_put hst _ (nulFree_json_quote u hu)
  refine ⟨fun rest => ?_, fun s2 hs2 hc2 heq => ?_⟩
  · rw [key s hs hcap]
    exact json_decode_quote s hs rest
  · apply json_quote_injective s2 s hs2 hs
    rw [← key s2 hs2 hc2, ← key s hs hcap, heq]

theorem escape_json_round_trip_witness :
    json_decode (cstr ((escape_json ⟨List.replicate 24 0, 0, 24⟩
        [97, 34, 10, 1, 200, 92]).mem.drop 0) ++ [44, 32]) = some ([97, 34, 10, 1, 200, 92], [44, 32]) :=
  (escape_json_round_trip ⟨List.replicate 24 0, 0, 24⟩ [97, 34, 10, 1, 200, 92]
    (by decide) (by decide) (by decide)).1 [44, 32]

/-! ## Decimal texts of `int` values -/

theorem digitChar_toNat (d : Nat) (h : d < 10) : (Nat.digitChar d).toNat = decDigit d := by
  interval_cases d <;> rfl

theorem digitsAux_eq_toDigitsCore :
    ∀ (fuel n : Nat) (acc : List Char),
      digitsAux 10 decDigit fuel n (acc.map Char.toNat)
        = (Nat.toDigitsCore 10 fuel n acc).map Char.toNat := by
  intro fuel
  induction fuel with
  | zero => intro n acc; simp [digitsAux, Nat.toDigitsCore]
  | succ f ih =>
    intro n acc
    have hmod : n % 10 < 10 := Nat.mod_lt _ (by decide)
    unfold digitsAux
    simp only [Nat.toDigitsCore]
    by_cases h : n < 10
    · have h0 : n / 10 = 0 := Nat.div_eq_of_lt h
      have hm : n % 10 = n := Nat.mod_eq_of_lt h
      simp only [h, if_true, h0, List.map_cons, hm, digitChar_toNat n h]
    · have h0 : n / 10 ≠ 0 := by omega
      simp only [h, if_false, h0]
      rw [← ih]
      simp only [List.map_cons, digitChar_toNat _ hmod]

/-- The text of `%u` is the decimal representation of the library. -/
theorem fmt_u_eq_repr (n : Nat) : fmt_u n = (Nat.repr n).toList.map Char.toNat := by
  have := digitsAux_eq_toDigitsCore (n + 1) n []
  simpa [fmt_u, Nat.repr, Nat.toDigits] using this

theorem length_digitsAux_le (digit : Nat → Nat) :
    ∀ (fuel n k : Nat) (acc : List Nat), n < 10 ^ (k + 1) →
      (digitsAux 10 digit fuel n acc).length ≤ acc.length + k + 1 := by
  intro fuel
  induction fuel with
  | zero => intro n k acc _; simp [digitsAux]; omega
  | succ f ih =>
    intro n k acc hn
    unfold digitsAux
    split_ifs with h
    · simp
    · cases k with
      | zero => simp at hn; omega
      | succ k =>
        have hdiv : n / 10 < 10 ^ (k + 1) := by
          rw [Nat.div_lt_iff_lt_mul (by norm_num)]
          calc n < 10 ^ (k + 1 + 1) := hn
            _ = 10 ^ (k + 1) * 10 := by ring
        have := ih (n / 10) k (digit (n % 10) :: acc) hdiv
        simp only [List.length_cons] at this
        omega

theorem length_fmt_u_le (n k : Nat) (h : n < 10 ^ (k + 1)) : (fmt_u n).length ≤ k + 1 := by
  have := length_digitsAux_le decDigit (n + 1) n k [] h
  simpa [fmt_u] using this

theorem length_fmt_d_le (v : Int) (h : IsInt v) : (fmt_d v).length ≤ 11 := by
  have hn : v.natAbs < 10 ^ (9 + 1) := by
    unfold IsInt at h
    have : (v.natAbs : Int) ≤ 2 ^ 31 := by
      rcases h with ⟨h1, h2⟩
      omega
    have : v.natAbs ≤ 2 ^ 31 := by exact_mod_cast this
    calc v.natAbs ≤ 2 ^ 31 := this
      _ < 10 ^ (9 + 1) := by norm_num
  have := length_fmt_u_le v.natAbs 9 hn
  unfold fmt_d
  split_ifs <;> simp <;> omega

/-! ## `format_netstr` when everything fits -/

theorem size_left_of_le (len : Nat) (h : len ≤ MAX_MESSAGE_SIZE) :
    size_left len = MAX_MESSAGE_SIZE - len := by
  unfold MAX_MESSAGE_SIZE at h
  simp only [size_left, MAX_MESSAGE_SIZE, SIZE_MOD]
  omega

theorem snprintf_fits (mem : List Nat) (off : Nat) (text : List Nat)
    (h : off + text.length < MAX_MESSAGE_SIZE) :
    snprintf mem off (size_left off) text = (store mem off (text ++ [0]), text.length) := by
  have hs : size_left off = MAX_MESSAGE_SIZE - off := size_left_of_le off (by omega)
  have h0 : size_left off ≠ 0 := by omega
  simp only [snprintf, h0, if_false]
  rw [List.take_of_length_le (by omega)]

theorem NETSTR_eq (mem : List Nat) (off size : Nat) (value : Option (List Nat))
    (h : (field_value value).length < UINT_MOD) :
    NETSTR mem off size value = snprintf mem off size (netstring (field_value value)) := by
  cases value with
  | none => rfl
  | some v =>
    simp only [field_value] at h
    simp only [NETSTR, netstring, field_value, strlen, Nat.mod_eq_of_lt h]

theorem length_netstring_ge (v : List Nat) : v.length ≤ (netstring v).length := by
  simp [netstring]; omega

theorem netstr_add_fits (mem : List Nat) (len : Nat) (value : Option (List Nat))
    (h : len + (netstring (field_value value)).length < MAX_MESSAGE_SIZE) :
    netstr_add (mem, len) value
      = (store mem len (netstring (field_value value) ++ [0]),
         len + (netstring (field_value value)).length) := by
  have hv : (field_value value).length < UINT_MOD := by
    have := length_netstring_ge (field_value value)
    unfold MAX_MESSAGE_SIZE at h
    unfold UINT_MOD
    omega
  simp only [netstr_add, NETSTR_eq _ _ _ value hv, snprintf_fits _ _ _ h]

theorem foldl_netstr_add_fits (msgbuf : List Nat) :
    ∀ (values : List (Option (List Nat))) (done : List Nat),
      done.length + (netstrings (values.map field_value)).length < MAX_MESSAGE_SIZE →
      values.foldl netstr_add (store msgbuf 0 (done ++ [0]), done.length)
        = (store msgbuf 0 (done ++ netstrings (values.map field_value) ++ [0]),
           done.length + (netstrings (values.map field_value)).length) := by
  intro values
  induction values with
  | nil => intro done _; simp [netstrings]
  | cons v vs ih =>
    intro done h
    simp only [List.map_cons, netstrings, List.length_append] at h
    simp only [List.foldl_cons, List.map_cons, netstrings]
    rw [netstr_add_fits _ _ _ (by omega)]
    have hs := store_store msgbuf 0 done (netstring (field_value v)) (Nat.zero_le _)
    rw [Nat.zero_add] at hs
    rw [hs]
    have := ih (done ++ netstring (field_value v)) (by simp only [List.length_append]; omega)
    simp only [List.length_append] at this
    rw [this]
    simp [List.append_assoc, Nat.add_assoc]

theorem format_netstr_run_eq_foldl (msgbuf : List Nat) (edata : ErrorData) (env : Env) :
    format_netstr_run msgbuf edata env
      = [some (snprintf_local 16 (fmt_d edata.elevel)),
         some (snprintf_local 16 (fmt_d edata.sqlerrcode)), env.session.log_username,
         env.session.log_database, env.session.log_hostname, edata.funcname, edata.message,
         edata.detail, edata.hint, edata.context, env.debug_query_string].foldl netstr_add
          (msgbuf, 0) := rfl

theorem field_value_intbuf (v : Int) (h : IsInt v) :
    field_value (some (snprintf_local 16 (fmt_d v))) = fmt_d v := by
  have hl := length_fmt_d_le v h
  simp only [field_value, snprintf_local]
  rw [List.take_of_length_le (by omega)]
  exact cstr_of_nul_free _ (nulFree_fmt_d v)

theorem format_netstr_eq_store (msgbuf : List Nat) (target : LogTarget) (edata : ErrorData)
    (env : Env) (h1 : IsInt edata.elevel) (h2 : IsInt edata.sqlerrcode)
    (hlen : (netstr_encoding edata env).length < MAX_MESSAGE_SIZE) :
    format_netstr msgbuf target edata env = store msgbuf 0 (netstr_encoding edata env ++ [0]) := by
  unfold format_netstr
  rw [format_netstr_run_eq_foldl]
  simp only [netstr_encoding, netstr_fields, netstrings, List.length_append] at hlen
  simp only [List.foldl_cons]
  rw [netstr_add_fits msgbuf 0 (some (snprintf_local 16 (fmt_d edata.elevel)))
    (by rw [field_value_intbuf _ h1]; omega)]
  have := foldl_netstr_add_fits msgbuf
    [some (snprintf_local 16 (fmt_d edata.sqlerrcode)), env.session.log_username,
      env.session.log_database, env.session.log_hostname, edata.funcname, edata.message,
      edata.detail, edata.hint, edata.context, env.debug_query_string]
    (netstring (field_value (some (snprintf_local 16 (fmt_d edata.elevel)))))
    (by
      simp only [List.map_cons, List.map_nil, netstrings, List.length_append,
        field_value_intbuf _ h1, field_value_intbuf _ h2]
      omega)
  simp only [Nat.zero_add, List.foldl_cons, List.foldl_nil] at this ⊢
  rw [this]
  simp only [List.map_cons, List.map_nil, netstrings, field_value_intbuf _ h1,
    field_value_intbuf _ h2, netstr_encoding, netstr_fields, List.append_assoc]

theorem nulFree_field_value (v : Option (List Nat)) : NulFree (field_value v) := by
  cases v with
  | none => simp [field_value, NulFree]
  | some s => exact nulFree_cstr s

theorem nulFree_netstring (v : List Nat) (h : NulFree v) : NulFree (netstring v) :=
  nulFree_append (nulFree_append (nulFree_append (nulFree_fmt_u _) (by decide)) h) (by decide)

theorem nulFree_netstrings (vs : List (List Nat)) (h : ∀ v ∈ vs, NulFree v) :
    NulFree (netstrings vs) := by
  induction vs with
  | nil => simp [netstrings, NulFree]
  | cons v r ih =>
    simp only [netstrings]
    exact nulFree_append (nulFree_netstring v (h v (by simp)))
      (ih (fun x hx => h x (by simp [hx])))

theorem nulFree_netstr_encoding (edata : ErrorData) (env : Env) :
    NulFree (netstr_encoding edata env) := by
  apply nulFree_netstrings
  intro v hv
  simp only [netstr_fields, List.mem_cons, List.mem_singleton, List.not_mem_nil, or_false] at hv
  rcases hv with rfl | rfl | rfl | rfl | rfl | rfl | rfl | rfl | rfl | rfl | rfl
  all_goals first
    | exact nulFree_fmt_d _
    | exact nulFree_field_value _

/-- C4: for `int` levels and codes and an encoding shorter than the buffer,
`format_netstr` returns exactly the eleven segments `LEN:VALUE,` (`netstring`)
of elevel, sqlerrcode, username, database, remote host, funcname, message,
detail, hint, context and debug_query_string, in that order and with nothing
between them; the segment of an absent field is `0:,`. -/
theorem format_netstr_returns_segments (msgbuf : List Nat) (target : LogTarget)
    (edata : ErrorData) (env : Env) (h1 : IsInt edata.elevel) (h2 : IsInt edata.sqlerrcode)
    (hlen : (netstr_encoding edata env).length < MAX_MESSAGE_SIZE) :
    cstr (format_netstr msgbuf target edata env)
        = netstring (fmt_d edata.elevel) ++ netstring (fmt_d edata.sqlerrcode)
          ++ netstring (field_value env.session.log_username)
          ++ netstring (field_value env.session.log_database)
          ++ netstring (field_value env.session.log_hostname)
          ++ netstring (field_value edata.funcname)
          ++ netstring (field_value edata.message)
          ++ netstring (field_value edata.detail)
          ++ netstring (field_value edata.hint)
          ++ netstring (field_value edata.context)
          ++ netstring (field_value env.debug_query_string)
      ∧ netstring (field_value none) = lit "0:," := by
  refine ⟨?_, by decide⟩
  rw [format_netstr_eq_store msgbuf target edata env h1 h2 hlen,
    cstr_store_zero _ _ (nulFree_netstr_encoding edata env)]
  simp only [netstr_encoding, netstr_fields, netstrings, List.append_assoc, List.append_nil]

set_option maxRecDepth 20000 in
theorem format_netstr_returns_segments_witness :
    cstr (format_netstr (List.replicate 8192 0)
        ⟨lit "t1", some (lit "10.0.0.1"), 514, 3, ⟨2, 514, 167772161⟩, some (lit "netstr"), none,
          -1, 0, some (lit "timeout"), .format_netstr⟩
        ⟨20, 16908420, some (lit "connection timeout"), none, some (lit "a:b,c"), none,
          some (lit "f")⟩
        ⟨⟨some (lit "alice"), some (lit "db"), none⟩, some (lit "select 1"), lit "box", 77,
          ⟨14, 17, 18, 19, 20, 21, 22⟩, ⟨124, 9, 31, 6, 5, 4⟩⟩)
      = lit "2:20,8:16908420,5:alice,2:db,0:,1:f,18:connection timeout,0:,5:a:b,c,0:,8:select 1," :=
  (format_netstr_returns_segments _ _ _ _ (by decide) (by decide) (by decide)).1.trans (by decide)

/-! ## `format_netstr` past the end of the buffer -/

theorem netstr_add_extent (st : List Nat × Nat) (value : Option (List Nat))
    (h : (field_value value).length < UINT_MOD) :
    ((netstr_add st value).1.length, (netstr_add st value).2)
      = netstr_extent (st.1.length, st.2) (netstring (field_value value)).length := by
  simp only [netstr_add, NETSTR_eq _ _ _ value h, snprintf, netstr_extent]
  split_ifs with h0
  · rfl
  · simp only [length_store, List.length_append, List.length_take, List.length_singleton]

theorem foldl_netstr_extent :
    ∀ (values : List (Option (List Nat))) (st : List Nat × Nat),
      (∀ v ∈ values, (field_value v).length < UINT_MOD) →
      ((values.foldl netstr_add st).1.length, (values.foldl netstr_add st).2)
        = (values.map (fun v => (netstring (field_value v)).length)).foldl netstr_extent
            (st.1.length, st.2) := by
  intro values
  induction values with
  | nil => intro st _; rfl
  | cons v vs ih =>
    intro st h
    simp only [List.foldl_cons, List.map_cons]
    rw [ih (netstr_add st v) (fun x hx => h x (by simp [hx])),
      netstr_add_extent st v (h v (by simp))]

theorem length_netstring (v : List Nat) :
    (netstring v).length = (fmt_u v.length).length + v.length + 2 := by
  simp only [netstring, List.length_append, show (lit ":").length = 1 by decide,
    show (lit ",").length = 1 by decide]
  omega

theorem field_value_replicate (n : Nat) :
    field_value (some (List.replicate n 65)) = List.replicate n 65 :=
  cstr_of_nul_free _ (fun b hb => by rw [List.eq_of_mem_replicate hb]; decide)

/-- C5: for a record whose message has 9000 bytes, `len` is 9027 after the
seventh `NETSTR` statement of `format_netstr`, the size `sizeof(msgbuf)-len`
given to the eighth has wrapped around, `len` ends at 9039 and the memory the
call has written extends to 9040 bytes, past the 8192 of the buffer. -/
theorem format_netstr_writes_past_buffer :
    ([some (snprintf_local 16 (fmt_d overlong_record.elevel)),
        some (snprintf_local 16 (fmt_d overlong_record.sqlerrcode)),
        bare_env.session.log_username, bare_env.session.log_database,
        bare_env.session.log_hostname, overlong_record.funcname,
        overlong_record.message].foldl netstr_add
        (List.replicate MAX_MESSAGE_SIZE 0, 0)).2 = 9027
      ∧ size_left 9027 = 2 ^ 64 - 835
      ∧ (format_netstr_run (List.replicate MAX_MESSAGE_SIZE 0) overlong_record bare_env).2 = 9039
      ∧ (format_netstr (List.replicate MAX_MESSAGE_SIZE 0) (sample_target .format_netstr)
          overlong_record bare_env).length = 9040 := by
  have hsmall : ∀ v ∈ [some (snprintf_local 16 (fmt_d overlong_record.elevel)),
      some (snprintf_local 16 (fmt_d overlong_record.sqlerrcode)),
      bare_env.session.log_username, bare_env.session.log_database,
      bare_env.session.log_hostname, overlong_record.funcname, overlong_record.message,
      overlong_record.detail, overlong_record.hint, overlong_record.context,
      bare_env.debug_query_string], (field_value v).length < UINT_MOD := by
    intro v hv
    simp only [List.mem_cons, List.mem_singleton, List.not_mem_nil, or_false] at hv
    rcases hv with rfl | rfl | rfl | rfl | rfl | rfl | rfl | rfl | rfl | rfl | rfl
    all_goals first
      | (simp only [overlong_record, field_value_replicate, List.length_replicate]; decide)
      | decide
  have hmsg : (netstring (field_value overlong_record.message)).length = 9006 := by
    simp only [overlong_record, field_value_replicate, length_netstring, List.length_replicate]
    decide
  have e1 : (netstring (field_value
      (some (snprintf_local 16 (fmt_d overlong_record.elevel))))).length = 5 := by decide
  have e2 : (netstring (field_value
      (some (snprintf_local 16 (fmt_d overlong_record.sqlerrcode))))).length = 4 := by decide
  have e3 : (netstring (field_value (none : Option (List Nat)))).length = 3 := by decide
  have h7 := foldl_netstr_extent
    [some (snprintf_local 16 (fmt_d overlong_record.elevel)),
      some (snprintf_local 16 (fmt_d overlong_record.sqlerrcode)),
      bare_env.session.log_username, bare_env.session.log_database,
      bare_env.session.log_hostname, overlong_record.funcname, overlong_record.message]
    (List.replicate MAX_MESSAGE_SIZE 0, 0)
    (fun v hv => hsmall v (List.mem_of_mem_take (n := 7) hv))
  have h11 := foldl_netstr_extent _ (List.replicate MAX_MESSAGE_SIZE 0, 0) hsmall
  simp only [List.map_cons, List.map_nil, hmsg, e1, e2, List.length_replicate] at h7 h11
  simp only [show bare_env.session.log_username = none from rfl,
    show bare_env.session.log_database = none from rfl,
    show bare_env.session.log_hostname = none from rfl,
    show bare_env.debug_query_string = none from rfl,
    show overlong_record.funcname = none from rfl,
    show overlong_record.detail = none from rfl,
    show overlong_record.hint = none from rfl,
    show overlong_record.context = none from rfl, e3] at h7 h11
  have v7 : [5, 4, 3, 3, 3, 3, 9006].foldl netstr_extent (MAX_MESSAGE_SIZE, 0) = (8192, 9027) := by
    decide
  have v11 : [5, 4, 3, 3, 3, 3, 9006, 3, 3, 3, 3].foldl netstr_extent (MAX_MESSAGE_SIZE, 0)
      = (9040, 9039) := by
    decide
  rw [v7] at h7
  rw [v11] at h11
  refine ⟨(Prod.mk.inj h7).2, by decide, ?_, ?_⟩
  · rw [format_netstr_run_eq_foldl]
    exact (Prod.mk.inj h11).2
  · unfold format_netstr
    rw [format_netstr_run_eq_foldl]
    exact (Prod.mk.inj h11).1

/-! ## `format_syslog` -/

theorem take_store_of_le (mem : List Nat) (i : Nat) (bs : List Nat) (k : Nat) (hk : k ≤ i)
    (hm : k ≤ mem.length) : (store mem i bs).take k = mem.take k := by
  simp only [store, List.append_assoc]
  rw [List.take_append_of_le_length (by simp; omega), List.take_take]
  congr 1
  omega

theorem take_snprintf (mem : List Nat) (off size : Nat) (text : List Nat) (k : Nat)
    (hk : k ≤ off) (hm : k ≤ mem.length) : (snprintf mem off size text).1.take k = mem.take k := by
  simp only [snprintf]
  split_ifs
  · rfl
  · exact take_store_of_le _ _ _ _ hk hm

theorem length_snprintf_ge (mem : List Nat) (off size : Nat) (text : List Nat) :
    mem.length ≤ (snprintf mem off size text).1.length := by
  simp only [snprintf]
  split_ifs
  · exact Nat.le_refl _
  · rw [length_store]; exact Nat.le_max_left _ _

theorem take_snprintf_start (mem : List Nat) (text p : List Nat) (hp : p <+: text)
    (hlen : p.length < MAX_MESSAGE_SIZE) :
    (snprintf mem 0 MAX_MESSAGE_SIZE text).1.take p.length = p := by
  obtain ⟨t, rfl⟩ := hp
  have h0 : MAX_MESSAGE_SIZE ≠ 0 := by decide
  simp only [snprintf, h0, if_false, store, List.take_zero, Nat.zero_sub, List.replicate_zero,
    List.nil_append, List.append_assoc]
  rw [List.take_append_eq_append_take, List.take_take, List.take_append_eq_append_take]
  have : min p.length (MAX_MESSAGE_SIZE - 1) = p.length := by omega
  simp only [this, List.take_length]
  have h2 : p.length - min (MAX_MESSAGE_SIZE - 1) (p.length + t.length) = 0 := by omega
  simp [h2]

/-- A short NUL-free beginning of the header is a beginning of the payload. -/
theorem format_syslog_keeps_beginning (msgbuf : List Nat) (target : LogTarget) (edata : ErrorData)
    (env : Env) (p : List Nat) (hp : p <+: syslog_header target edata env)
    (hlen : p.length < MAX_MESSAGE_SIZE) (hnf : NulFree p) :
    p <+: cstr (format_syslog msgbuf target edata env) := by
  have hle : p.length ≤ (syslog_header target edata env).length := hp.length_le
  have h1 := take_snprintf_start msgbuf _ p hp hlen
  have l1 : p.length ≤ (snprintf msgbuf 0 MAX_MESSAGE_SIZE
      (syslog_header target edata env)).1.length := by
    have := congrArg List.length h1
    rw [List.length_take] at this
    omega
  have hfinal : (format_syslog msgbuf target edata env).take p.length = p := by
    unfold format_syslog
    simp only []
    rw [take_snprintf _ _ _ _ _ (by simp only [snprintf]; omega)
      (Nat.le_trans l1 (length_snprintf_ge _ _ _ _)),
      take_snprintf _ _ _ _ _ (by simp only [snprintf]; omega) l1]
    exact h1
  have : format_syslog msgbuf target edata env
      = p ++ (format_syslog msgbuf target edata env).drop p.length := by
    conv_lhs => rw [← List.take_append_drop p.length (format_syslog msgbuf target edata env)]
    rw [hfinal]
  rw [this, cstr_append _ _ hnf]
  exact List.prefix_append _ _

theorem syslog_severity_loop_nonneg (elevel : Int) (table : List (Int × Int)) (severity : Int)
    (h : 0 ≤ severity) : syslog_severity_loop elevel table severity = severity := by
  cases table with
  | nil => rfl
  | cons p rest =>
    obtain ⟨threshold, sev⟩ := p
    simp only [syslog_severity_loop, not_lt.mpr h, if_false]

theorem syslog_severity_loop_cons (elevel threshold sev : Int) (rest : List (Int × Int)) :
    syslog_severity_loop elevel ((threshold, sev) :: rest) (-1)
      = if elevel ≤ threshold then syslog_severity_loop elevel rest sev
        else syslog_severity_loop elevel rest (-1) := by
  have hneg : (-1 : Int) < 0 := by decide
  simp only [syslog_severity_loop, hneg, if_true]
  split_ifs <;> rfl

theorem syslog_severity_cascade (lv : ElogLevels) (l : Int) :
    syslog_severity lv l
      = if l ≤ lv.DEBUG1 then 7
        else if l ≤ lv.INFO then 6
        else if l ≤ lv.NOTICE then 5
        else if l ≤ lv.WARNING then 4
        else if l ≤ lv.ERROR then 3
        else if l ≤ lv.FATAL then 2
        else if l ≤ lv.PANIC then 0
        else -1 := by
  simp only [syslog_severity, syslog_levels, syslog_severity_loop_cons,
    syslog_severity_loop_nonneg _ _ 7 (by decide), syslog_severity_loop_nonneg _ _ 6 (by decide),
    syslog_severity_loop_nonneg _ _ 5 (by decide), syslog_severity_loop_nonneg _ _ 4 (by decide),
    syslog_severity_loop_nonneg _ _ 3 (by decide), syslog_severity_loop_nonneg _ _ 2 (by decide),
    syslog_severity_loop_nonneg _ _ 0 (by decide)]
  rfl

theorem syslog_severity_eq (lv : ElogLevels) (l : Int) (h : l ≤ lv.PANIC) :
    severity_of lv l = some (syslog_severity lv l) := by
  rw [syslog_severity_cascade]
  unfold severity_of
  split_ifs <;> rfl

theorem syslog_pri_begins_header (target : LogTarget) (edata : ErrorData) (env : Env) :
    lit "<" ++ fmt_d (syslog_pri env.levels target edata) ++ lit ">1 "
      <+: syslog_header target edata env := by
  have : syslog_header target edata env
      = (lit "<" ++ fmt_d (syslog_pri env.levels target edata) ++ lit ">1 ")
        ++ (strftime 32 env.gmt ++ lit " " ++ cstr env.my_hostname ++ lit " postgres "
          ++ fmt_d env.MyProcPid ++ lit " " ++ lit "-" ++ lit " ") := by
    simp only [syslog_header, List.append_assoc]
  rw [this]
  exact List.prefix_append _ _

theorem pri_text_short (pri : Int) (h : IsInt pri) :
    (lit "<" ++ fmt_d pri ++ lit ">1 ").length < MAX_MESSAGE_SIZE := by
  have := length_fmt_d_le pri h
  simp only [List.length_append, show (lit "<").length = 1 by decide,
    show (lit ">1 ").length = 3 by decide, MAX_MESSAGE_SIZE]
  omega

theorem nulFree_pri_text (pri : Int) : NulFree (lit "<" ++ fmt_d pri ++ lit ">1 ") :=
  nulFree_append (nulFree_append (by decide) (nulFree_fmt_d pri)) (by decide)

theorem format_syslog_begins (msgbuf : List Nat) (target : LogTarget) (edata : ErrorData)
    (env : Env) (h : IsInt (syslog_pri env.levels target edata)) :
    lit "<" ++ fmt_d (syslog_pri env.levels target edata) ++ lit ">1 "
      <+: cstr (format_syslog msgbuf target edata env) :=
  format_syslog_keeps_beginning msgbuf target edata env _ (syslog_pri_begins_header target edata env)
    (pri_text_short _ h) (nulFree_pri_text _)

/-- C9: for a facility code `f ≥ 0` (with `f * 8 + 7` an `int`) and a level at
or below `PANIC`, the severity is the one of the first threshold of the table
the level is at or below (`severity_of`), `pri` is `f * 8` plus that severity
and the payload of `format_syslog` begins with `<PRI>1 `; with the levels in
their order, facility 16 and level `ERROR` the payload begins with
`<131>1 `. -/
theorem format_syslog_pri (msgbuf : List Nat) (target : LogTarget) (edata : ErrorData)
    (env : Env) (hf : 0 ≤ target.facility_id) (hint : IsInt (target.facility_id * 8 + 7))
    (hl : edata.elevel ≤ env.levels.PANIC) :
    ∃ sev, severity_of env.levels edata.elevel = some sev
      ∧ 0 ≤ sev ∧ sev ≤ 7
      ∧ syslog_pri env.levels target edata = target.facility_id * 8 + sev
      ∧ lit "<" ++ fmt_d (target.facility_id * 8 + sev) ++ lit ">1 "
          <+: cstr (format_syslog msgbuf target edata env)
      ∧ (LevelsOrdered env.levels → target.facility_id = 16 →
          edata.elevel = env.levels.ERROR →
          lit "<131>1 " <+: cstr (format_syslog msgbuf target edata env)) := by
  have hsev := syslog_severity_eq env.levels edata.elevel hl
  have hrange : 0 ≤ syslog_severity env.levels edata.elevel
      ∧ syslog_severity env.levels edata.elevel ≤ 7 := by
    rw [syslog_severity_cascade]
    split_ifs <;> omega
  have hpri : IsInt (syslog_pri env.levels target edata) := by
    unfold IsInt syslog_pri at *
    omega
  have hbeg := format_syslog_begins msgbuf target edata env hpri
  refine ⟨syslog_severity env.levels edata.elevel, hsev, hrange.1, hrange.2, rfl, hbeg, ?_⟩
  intro hord h16 hE
  have h3 : syslog_severity env.levels edata.elevel = 3 := by
    rw [syslog_severity_cascade, hE]
    unfold LevelsOrdered at hord
    split_ifs <;> omega
  have : syslog_pri env.levels target edata = 131 := by
    unfold syslog_pri
    rw [h3, h16]
    rfl
  rw [this] at hbeg
  exact hbeg

theorem format_syslog_pri_witness :
    lit "<131>1 " <+: cstr (format_syslog (List.replicate 8192 0) (sample_target .format_syslog)
      disk_full_record bare_env) := by
  obtain ⟨_, _, _, _, _, _, h⟩ := format_syslog_pri (List.replicate 8192 0)
    (sample_target .format_syslog) disk_full_record bare_env (by decide) (by decide) (by decide)
  exact h (by decide) rfl rfl

/-- C10: with the levels of PostgreSQL, facility 16 and the level 23 above
`PANIC` no threshold of the table matches, `severity` keeps its initial `-1`,
`pri` is 127 and the payload of `format_syslog` begins with `<127>1 `. -/
theorem format_syslog_above_panic :
    pg_levels.PANIC < 23
      ∧ syslog_severity pg_levels 23 = -1
      ∧ syslog_pri pg_levels (sample_target .format_syslog)
          { disk_full_record with elevel := 23 } = 127
      ∧ lit "<127>1 " <+: cstr (format_syslog (List.replicate MAX_MESSAGE_SIZE 0)
          (sample_target .format_syslog) { disk_full_record with elevel := 23 } bare_env) :=
  ⟨by decide, by decide, by decide,
    format_syslog_begins (List.replicate MAX_MESSAGE_SIZE 0) (sample_target .format_syslog)
      { disk_full_record with elevel := 23 } bare_env (by decide)⟩

/-! ## The filter -/

theorem appendsCut_append_string (s : List Nat) :
    AppendsCut (fun st => append_string st (some s)) (cstr s) :=
  fun _ h hmax => append_string_eq h hmax s

theorem appendsCut_comp {f g : Cursor → Cursor} {a b : List Nat}
    (hf : AppendsCut f a) (hg : AppendsCut g b) : AppendsCut (fun st => g (f st)) (a ++ b) := by
  intro st h hmax
  show g (f st) = _
  have hlen : (a.take (st.max - 1)).length ≤ st.max - 1 := by
    rw [List.length_take]; exact Nat.min_le_left _ _
  rw [hf st h hmax, hg _ (atNul_put h _) (by simp only [Cursor.put]; omega), put_put h]
  congr 1
  simp only [Cursor.put, List.take_append_eq_append_take, List.length_take]
  congr 2
  omega

theorem appendsCut_id : AppendsCut (fun st => st) [] := by
  intro st h _
  simp only [List.take_nil]
  exact (put_nil h).symm

theorem appendsCut_congr {f : Cursor → Cursor} {a b : List Nat} (hf : AppendsCut f a)
    (hab : a = b) : AppendsCut f b := hab ▸ hf

theorem appendsCut_escape_json_char (c : Nat) (h0 : c ≠ 0) :
    AppendsCut (fun st => escape_json_char st c) (json_image c) := by
  unfold escape_json_char json_image
  split_ifs with h1 h2 h3 h4 h5 h6 h7 h8
  all_goals first
    | exact appendsCut_congr (appendsCut_append_string _) (by decide)
    | exact appendsCut_congr (appendsCut_append_string _) (escape_u_text c h0 h8)
    | exact appendsCut_congr (appendsCut_append_string _) (by simp [cstr, h0])

theorem appendsCut_escape_json_loop (s : List Nat) :
    AppendsCut (fun st => escape_json_loop st s) (json_escape (cstr s)) := by
  induction s with
  | nil => exact appendsCut_id
  | cons c r ih =>
    by_cases h0 : c = 0
    · simp only [escape_json_loop, h0, if_true, cstr, json_escape]
      exact appendsCut_id
    · simp only [escape_json_loop, h0, if_false, cstr, json_escape]
      exact appendsCut_comp (appendsCut_escape_json_char c h0) ih

theorem appendsCut_escape_json (s : List Nat) :
    AppendsCut (fun st => escape_json st s) (json_quote (cstr s)) := by
  unfold escape_json json_quote
  exact appendsCut_comp (appendsCut_comp
    (appendsCut_congr (appendsCut_append_string _) (by decide))
    (appendsCut_escape_json_loop s)) (appendsCut_congr (appendsCut_append_string _) (by decide))

theorem appendsCut_append_json_string (key : List Nat) (val : Option (List Nat))
    (addComma : Bool) :
    AppendsCut (fun st => append_json_string st key val addComma)
      (json_quote (cstr key) ++ lit ": " ++ json_value val
        ++ (if addComma then lit ", " else [])) := by
  have hval : AppendsCut (fun st => match val with
      | some v => escape_json st v
      | none => append_string st (some (lit "null"))) (json_value val) := by
    cases val with
    | none => exact appendsCut_congr (appendsCut_append_string _) (by decide)
    | some v => exact appendsCut_escape_json v
  have h3 := appendsCut_comp (appendsCut_comp (appendsCut_escape_json key)
    (appendsCut_congr (appendsCut_append_string (lit ": "))
      (by decide : cstr (lit ": ") = lit ": "))) hval
  cases addComma with
  | false =>
    simp only [Bool.false_eq_true, if_false, List.append_nil]
    exact h3
  | true =>
    simp only [if_true]
    exact appendsCut_comp h3 (appendsCut_congr (appendsCut_append_string (lit ", ")) (by decide))

theorem appendsCut_append_json_int (key : List Nat) (val : Int) (addComma : Bool) :
    AppendsCut (fun st => append_json_int st key val addComma)
      (json_quote (cstr key) ++ lit ": " ++ (fmt_d val).take (SIZEOF_PTR - 1)
        ++ (if addComma then lit ", " else [])) := by
  have hint : AppendsCut
      (fun st => append_string st (some (snprintf_local SIZEOF_PTR (fmt_d val))))
      ((fmt_d val).take (SIZEOF_PTR - 1)) :=
    appendsCut_congr (appendsCut_append_string _)
      (cstr_of_nul_free _ (nulFree_take _ (nulFree_fmt_d val)))
  have h3 := appendsCut_comp (appendsCut_comp (appendsCut_escape_json key)
    (appendsCut_congr (appendsCut_append_string (lit ": "))
      (by decide : cstr (lit ": ") = lit ": "))) hint
  cases addComma with
  | false =>
    simp only [Bool.false_eq_true, if_false, List.append_nil]
    exact h3
  | true =>
    simp only [if_true]
    exact appendsCut_comp h3 (appendsCut_congr (appendsCut_append_string (lit ", ")) (by decide))

theorem appendsCut_format_json_appends (edata : ErrorData) (env : Env) :
    AppendsCut (fun st => format_json_appends st edata env) (json_text edata env) := by
  have chain :=
    appendsCut_comp (appendsCut_comp (appendsCut_comp (appendsCut_comp (appendsCut_comp
    (appendsCut_comp (appendsCut_comp (appendsCut_comp (appendsCut_comp (appendsCut_comp
    (appendsCut_comp (appendsCut_comp
      (appendsCut_congr (appendsCut_append_string (lit "\x7b ")) (by decide : _ = lit "\x7b "))
      (appendsCut_append_json_string (lit "username") env.session.log_username true))
      (appendsCut_append_json_string (lit "database") env.session.log_database true))
      (appendsCut_append_json_string (lit "remotehost") env.session.log_hostname true))
      (appendsCut_append_json_string (lit "debug_query_string") env.debug_query_string true))
      (appendsCut_append_json_int (lit "elevel") edata.elevel true))
      (appendsCut_append_json_string (lit "funcname") edata.funcname true))
      (appendsCut_append_json_int (lit "sqlerrcode") edata.sqlerrcode true))
      (appendsCut_append_json_string (lit "message") edata.message true))
      (appendsCut_append_json_string (lit "detail") edata.detail true))
      (appendsCut_append_json_string (lit "hint") edata.hint true))
      (appendsCut_append_json_string (lit "context") edata.context false))
      (appendsCut_congr (appendsCut_append_string (lit " \x7d")) (by decide : _ = lit " \x7d"))
  have k1 : json_quote (cstr (lit "username")) = lit "\"" ++ lit "username" ++ lit "\"" := by decide
  have k2 : json_quote (cstr (lit "database")) = lit "\"" ++ lit "database" ++ lit "\"" := by decide
  have k3 : json_quote (cstr (lit "remotehost")) = lit "\"" ++ lit "remotehost" ++ lit "\"" := by
    decide
  have k4 : json_quote (cstr (lit "debug_query_string"))
      = lit "\"" ++ lit "debug_query_string" ++ lit "\"" := by decide
  have k5 : json_quote (cstr (lit "elevel")) = lit "\"" ++ lit "elevel" ++ lit "\"" := by decide
  have k6 : json_quote (cstr (lit "funcname")) = lit "\"" ++ lit "funcname" ++ lit "\"" := by decide
  have k7 : json_quote (cstr (lit "sqlerrcode")) = lit "\"" ++ lit "sqlerrcode" ++ lit "\"" := by
    decide
  have k8 : json_quote (cstr (lit "message")) = lit "\"" ++ lit "message" ++ lit "\"" := by decide
  have k9 : json_quote (cstr (lit "detail")) = lit "\"" ++ lit "detail" ++ lit "\"" := by decide
  have k10 : json_quote (cstr (lit "hint")) = lit "\"" ++ lit "hint" ++ lit "\"" := by decide
  have k11 : json_quote (cstr (lit "context")) = lit "\"" ++ lit "context" ++ lit "\"" := by decide
  rw [k1, k2, k3, k4, k5, k6, k7, k8, k9, k10, k11] at chain
  simp only [if_true, Bool.false_eq_true, if_false, List.append_nil] at chain
  exact appendsCut_congr chain
    (by simp only [json_text, json_pair, json_pair_int7, SIZEOF_PTR, List.append_assoc])

theorem format_json_eq_appends (msgbuf : List Nat) (target : LogTarget) (edata : ErrorData)
    (env : Env) :
    format_json msgbuf target edata env
      = (format_json_appends { mem := store msgbuf 0 [0], dst := 0, max := MAX_MESSAGE_SIZE }
          edata env).mem := rfl

/-- What `format_json` leaves in the buffer, for every record. -/
theorem format_json_eq_store (msgbuf : List Nat) (target : LogTarget) (edata : ErrorData)
    (env : Env) :
    format_json msgbuf target edata env
      = store msgbuf 0 ((json_text edata env).take (MAX_MESSAGE_SIZE - 1) ++ [0]) := by
  rw [format_json_eq_appends]
  have := appendsCut_format_json_appends edata env
    { mem := store msgbuf 0 [0], dst := 0, max := MAX_MESSAGE_SIZE } (atNul_start _ _)
    (show 0 < MAX_MESSAGE_SIZE by decide)
  have hmem := congrArg Cursor.mem this
  simp only [Cursor.put] at hmem
  rw [store_start] at hmem
  exact hmem

theorem nulFree_json_text (edata : ErrorData) (env : Env) : NulFree (json_text edata env) := by
  unfold json_text json_pair json_pair_int7
  repeat' apply nulFree_append
  all_goals first
    | exact nulFree_json_value _
    | exact nulFree_take _ (nulFree_fmt_d _)
    | decide

theorem cstr_format_json (msgbuf : List Nat) (target : LogTarget) (edata : ErrorData)
    (env : Env) :
    cstr (format_json msgbuf target edata env)
      = (json_text edata env).take (MAX_MESSAGE_SIZE - 1) := by
  rw [format_json_eq_store]
  exact cstr_store_zero _ _ (nulFree_take _ (nulFree_json_text edata env))

theorem append_string_none (st : Cursor) : append_string st none = st := by
  unfold append_string
  split_ifs <;> rfl

theorem append_string_max_one {st : Cursor} (h : AtNul st) (hmax : st.max = 1)
    (src : Option (List Nat)) : append_string st src = st := by
  cases src with
  | none => exact append_string_none st
  | some s =>
    rw [append_string_eq h (by omega), hmax]
    exact put_nil h

theorem append_string_cut_max {st : Cursor} (h : AtNul st) (hmax : 0 < st.max) (s : List Nat)
    (hs : st.max ≤ strlen s) : (append_string st (some s)).max = 1 := by
  rw [append_string_eq h hmax]
  unfold strlen at hs
  simp only [Cursor.put, List.length_take]
  omega

/-- C19: `format_json` returns the first `min L 8191` bytes of `json_text`, the
encoding without bound, whose length is `L`; `json_text` is what the appends of
`format_json` write from the start of a buffer of any capacity above `L`; an
append that is cut leaves the counter at 1, and at 1 every append leaves cursor,
counter and memory as they are. -/
theorem format_json_returns_beginning (msgbuf : List Nat) (target : LogTarget)
    (edata : ErrorData) (env : Env) :
    cstr (format_json msgbuf target edata env)
        = (json_text edata env).take (min (json_text edata env).length 8191)
      ∧ (∀ (mem : List Nat) (cap : Nat), (json_text edata env).length < cap →
          cstr (format_json_appends { mem := store mem 0 [0], dst := 0, max := cap }
            edata env).mem = json_text edata env)
      ∧ (∀ (st : Cursor) (s : List Nat), AtNul st → 0 < st.max → st.max ≤ strlen s →
          (append_string st (some s)).max = 1)
      ∧ (∀ (st : Cursor) (src : Option (List Nat)), AtNul st → st.max = 1 →
          append_string st src = st) := by
  refine ⟨?_, ?_, fun st s h hmax hs => append_string_cut_max h hmax s hs,
    fun st src h hmax => append_string_max_one h hmax src⟩
  · rw [cstr_format_json]
    by_cases hl : (json_text edata env).length ≤ 8191
    · rw [Nat.min_eq_left hl, List.take_of_length_le (by simp only [MAX_MESSAGE_SIZE]; omega),
        List.take_length]
    · rw [Nat.min_eq_right (by omega)]
      rfl
  · intro mem cap hcap
    have := appendsCut_format_json_appends edata env
      { mem := store mem 0 [0], dst := 0, max := cap } (atNul_start _ _)
      (show 0 < cap by omega)
    rw [show format_json_appends _ edata env = _ from this]
    simp only [Cursor.put]
    rw [store_start, List.take_of_length_le (by omega)]
    exact cstr_store_zero _ _ (nulFree_json_text edata env)

/-! ## The invariant of the appenders -/

theorem bufInv_put {st : Cursor} (h : BufInv st) (x : List Nat) (hx : x.length ≤ st.max - 1) :
    BufInv (st.put x) ∧ (st.put x).max ≤ st.max := by
  obtain ⟨hlen, hat, hsum, hone⟩ := h
  refine ⟨⟨?_, atNul_put hat x, ?_, ?_⟩, ?_⟩
  · simp only [Cursor.put, length_store, List.length_append, List.length_singleton, hlen]
    omega
  · simp only [Cursor.put]; omega
  · simp only [Cursor.put]; omega
  · simp only [Cursor.put]; omega

theorem bufInv_of_appendsCut {f : Cursor → Cursor} {text : List Nat} (hf : AppendsCut f text)
    {st : Cursor} (h : BufInv st) : BufInv (f st) ∧ (f st).max ≤ st.max := by
  rw [hf st h.2.1 h.2.2.2]
  exact bufInv_put h _ (by rw [List.length_take]; exact Nat.min_le_left _ _)

theorem getElem?_cstr_length (text rest : List Nat) :
    (text ++ 0 :: rest)[text.length]? = some 0 := by
  rw [List.getElem?_append_right (Nat.le_refl _)]
  simp

/-- C12: from a cursor on the terminator of the string at an offset of the
8192-byte buffer, with offset and counter adding up to 8192 and the counter at
least 1 (`BufInv`), each of `append_string`, `escape_json`, `append_json_string`
and `append_json_int` leads to a cursor for which the same holds, the memory
still being the 8192 bytes of the buffer, and does not increase the counter;
and `format_json` leaves the buffer at its 8192 bytes, holding a string of at
most 8191 bytes with its terminator. -/
theorem appenders_keep_invariant (st : Cursor) (h : BufInv st) :
    (∀ src, BufInv (append_string st src) ∧ (append_string st src).max ≤ st.max)
      ∧ (∀ str, BufInv (escape_json st str) ∧ (escape_json st str).max ≤ st.max)
      ∧ (∀ key val addComma, BufInv (append_json_string st key val addComma)
          ∧ (append_json_string st key val addComma).max ≤ st.max)
      ∧ (∀ key val addComma, BufInv (append_json_int st key val addComma)
          ∧ (append_json_int st key val addComma).max ≤ st.max)
      ∧ (∀ (msgbuf : List Nat) (target : LogTarget) (edata : ErrorData) (env : Env),
          msgbuf.length = MAX_MESSAGE_SIZE →
          (format_json msgbuf target edata env).length = MAX_MESSAGE_SIZE
            ∧ (cstr (format_json msgbuf target edata env)).length ≤ 8191
            ∧ (format_json msgbuf target edata env)[
                (cstr (format_json msgbuf target edata env)).length]? = some 0) := by
  refine ⟨fun src => ?_, fun str => bufInv_of_appendsCut (appendsCut_escape_json str) h,
    fun key val addComma => bufInv_of_appendsCut (appendsCut_append_json_string key val addComma) h,
    fun key val addComma => bufInv_of_appendsCut (appendsCut_append_json_int key val addComma) h,
    fun msgbuf target edata env hlen => ?_⟩
  · cases src with
    | none => rw [append_string_none]; exact ⟨h, Nat.le_refl _⟩
    | some s => exact bufInv_of_appendsCut (appendsCut_append_string s) h
  · have hc := cstr_format_json msgbuf target edata env
    have hle : ((json_text edata env).take (MAX_MESSAGE_SIZE - 1)).length ≤ 8191 := by
      rw [List.length_take]; exact Nat.min_le_left _ _
    refine ⟨?_, by rw [hc]; exact hle, ?_⟩
    · rw [format_json_eq_store, length_store, hlen]
      simp only [List.length_append, List.length_singleton, MAX_MESSAGE_SIZE] at hle ⊢
      omega
    · rw [hc, format_json_eq_store]
      simp only [store, List.take_zero, Nat.zero_sub, List.replicate_zero, List.nil_append,
        List.append_assoc, List.singleton_append]
      exact getElem?_cstr_length _ _

theorem bufInv_fresh : BufInv ⟨List.replicate MAX_MESSAGE_SIZE 0, 0, MAX_MESSAGE_SIZE⟩ := by
  refine ⟨List.length_replicate _ _, ?_, Nat.zero_add _, by decide⟩
  unfold AtNul
  rw [List.getElem?_replicate]
  rfl

theorem appenders_keep_invariant_witness :
    BufInv (escape_json ⟨List.replicate MAX_MESSAGE_SIZE 0, 0, MAX_MESSAGE_SIZE⟩
      (lit "a\nb")) :=
  ((appenders_keep_invariant ⟨List.replicate MAX_MESSAGE_SIZE 0, 0, MAX_MESSAGE_SIZE⟩
    bufInv_fresh).2.1 _).1

/-! ## Well-formed output of `format_json` -/

theorem json_scan_append (a b : List Nat) :
    ∀ st, json_scan st (a ++ b) = (json_scan st a).bind (fun s => json_scan s b) := by
  induction a with
  | nil => intro st; cases st <;> simp [json_scan]
  | cons c r ih =>
    intro st
    cases st with
    | outside => simp only [List.cons_append, json_scan]; split_ifs <;> exact ih _
    | text => simp only [List.cons_append, json_scan]; split_ifs <;> first | exact ih _ | rfl
    | escape =>
      simp only [List.cons_append, json_scan]
      split_ifs
      · exact ih _
      · cases unescape c with
        | none => rfl
        | some v => exact ih _
    | hex k =>
      simp only [List.cons_append, json_scan]
      cases hexVal c with
      | none => rfl
      | some v => simp only []; split_ifs <;> exact ih _

theorem neutral_of_scan {p : List Nat} (h : json_scan .outside p = some .outside) : Neutral p := by
  intro r
  rw [json_scan_append, h]
  rfl

theorem neutral_append {a b : List Nat} (ha : Neutral a) (hb : Neutral b) : Neutral (a ++ b) := by
  intro r
  rw [List.append_assoc, ha, hb]

theorem json_scan_plain (l : List Nat) (h : 34 ∉ l) : json_scan .outside l = some .outside := by
  induction l with
  | nil => rfl
  | cons c r ih =>
    have hc : c ≠ 34 := fun e => h (by simp [e])
    simp only [json_scan, hc, if_false]
    exact ih (fun hm => h (by simp [hm]))

theorem json_scan_image (b : Nat) (hb : b ≠ 0) (tail : List Nat) :
    json_scan .text (json_image b ++ tail) = json_scan .text tail := by
  unfold json_image
  split_ifs with h1 h2 h3 h4 h5 h6 h7 h8
  · subst h1; rw [show lit "\\b" = [92, 98] by decide]; simp [json_scan, unescape]
  · subst h2; rw [show lit "\\f" = [92, 102] by decide]; simp [json_scan, unescape]
  · subst h3; rw [show lit "\\n" = [92, 110] by decide]; simp [json_scan, unescape]
  · subst h4; rw [show lit "\\r" = [92, 114] by decide]; simp [json_scan, unescape]
  · subst h5; rw [show lit "\\t" = [92, 116] by decide]; simp [json_scan, unescape]
  · subst h6; rw [show lit "\\\"" = [92, 34] by decide]; simp [json_scan, unescape]
  · subst h7; rw [show lit "\\\\" = [92, 92] by decide]; simp [json_scan, unescape]
  · rw [show lit "\\u00" = [92, 117, 48, 48] by decide]
    interval_cases b <;>
      first
        | exact absurd rfl hb
        | exact absurd rfl h1
        | exact absurd rfl h2
        | exact absurd rfl h3
        | exact absurd rfl h4
        | exact absurd rfl h5
        | simp [json_scan, hexVal, hexDigit]
  · have h32 : ¬ b < 32 := h8
    simp [json_scan, h6, h7, h32]

theorem json_scan_escape (s : List Nat) (hs : NulFree s) (tail : List Nat) :
    json_scan .text (json_escape s ++ tail) = json_scan .text tail := by
  induction s with
  | nil => rfl
  | cons b r ih =>
    simp only [json_escape, List.append_assoc]
    rw [json_scan_image b (hs b (by simp)), ih (fun x hx => hs x (by simp [hx]))]

theorem neutral_json_quote (s : List Nat) (hs : NulFree s) : Neutral (json_quote s) := by
  intro r
  have e : json_quote s ++ r = 34 :: (json_escape s ++ 34 :: r) := by
    simp [json_quote, lit_quote]
  rw [e]
  simp only [json_scan, if_true]
  rw [json_scan_escape s hs]
  simp only [json_scan, if_true]

theorem neutral_json_value (v : Option (List Nat)) : Neutral (json_value v) := by
  cases v with
  | none => exact neutral_of_scan (by decide)
  | some s => exact neutral_json_quote _ (nulFree_cstr s)

theorem no_quote_digitsAux (base : Nat) (digit : Nat → Nat) (hd : ∀ d, digit d ≠ 34) :
    ∀ (fuel n : Nat) (acc : List Nat), 34 ∉ acc → 34 ∉ digitsAux base digit fuel n acc := by
  intro fuel
  induction fuel with
  | zero => intro n acc h; simpa [digitsAux] using h
  | succ k ih =>
    intro n acc h
    unfold digitsAux
    split_ifs
    · intro hm
      rcases List.mem_cons.mp hm with e | hm
      · exact hd _ e.symm
      · exact h hm
    · apply ih
      intro hm
      rcases List.mem_cons.mp hm with e | hm
      · exact hd _ e.symm
      · exact h hm

theorem no_quote_fmt_d (v : Int) : 34 ∉ fmt_d v := by
  have hu : ∀ n, 34 ∉ fmt_u n := fun n =>
    no_quote_digitsAux 10 decDigit (fun d => by simp only [decDigit]; omega) _ _ _
      (List.not_mem_nil _)
  unfold fmt_d
  split_ifs
  · intro hm
    rcases List.mem_cons.mp hm with e | hm
    · exact absurd e (by decide)
    · exact hu _ hm
  · exact hu _

theorem neutral_int7 (v : Int) : Neutral ((fmt_d v).take 7) :=
  neutral_of_scan (json_scan_plain _ (fun hm => no_quote_fmt_d v (List.mem_of_mem_take hm)))

theorem neutral_json_pair (key : String)
    (hk : json_scan .outside (lit "\"" ++ lit key ++ lit "\"" ++ lit ": ") = some .outside)
    (val : Option (List Nat)) : Neutral (json_pair key val) :=
  neutral_append (neutral_of_scan hk) (neutral_json_value val)

theorem neutral_json_pair_int7 (key : String)
    (hk : json_scan .outside (lit "\"" ++ lit key ++ lit "\"" ++ lit ": ") = some .outside)
    (val : Int) : Neutral (json_pair_int7 key val) :=
  neutral_append (neutral_of_scan hk) (neutral_int7 val)

theorem neutral_comma {a p : List Nat} (ha : Neutral a) (hp : Neutral p) :
    Neutral (a ++ p ++ lit ", ") :=
  neutral_append (neutral_append ha hp) (neutral_of_scan (by decide))

theorem json_scan_json_text (edata : ErrorData) (env : Env) :
    json_scan .outside (json_text edata env) = some .outside := by
  have h0 : Neutral (lit "\x7b ") := neutral_of_scan (by decide)
  have h1 := neutral_comma h0 (neutral_json_pair "username" (by decide) env.session.log_username)
  have h2 := neutral_comma h1 (neutral_json_pair "database" (by decide) env.session.log_database)
  have h3 := neutral_comma h2
    (neutral_json_pair "remotehost" (by decide) env.session.log_hostname)
  have h4 := neutral_comma h3
    (neutral_json_pair "debug_query_string" (by decide) env.debug_query_string)
  have h5 := neutral_comma h4 (neutral_json_pair_int7 "elevel" (by decide) edata.elevel)
  have h6 := neutral_comma h5 (neutral_json_pair "funcname" (by decide) edata.funcname)
  have h7 := neutral_comma h6 (neutral_json_pair_int7 "sqlerrcode" (by decide) edata.sqlerrcode)
  have h8 := neutral_comma h7 (neutral_json_pair "message" (by decide) edata.message)
  have h9 := neutral_comma h8 (neutral_json_pair "detail" (by decide) edata.detail)
  have h10 := neutral_comma h9 (neutral_json_pair "hint" (by decide) edata.hint)
  have h11 : Neutral (json_text edata env) :=
    neutral_append (neutral_append h10 (neutral_json_pair "context" (by decide) edata.context))
      (neutral_of_scan (by decide))
  have := h11 []
  rwa [List.append_nil] at this

theorem json_text_begins (edata : ErrorData) (env : Env) :
    lit "\x7b " <+: json_text edata env := by
  unfold json_text
  simp only [List.append_assoc]
  exact List.prefix_append _ _

theorem json_text_ends (edata : ErrorData) (env : Env) :
    lit " \x7d" <:+ json_text edata env := by
  unfold json_text
  exact List.suffix_append _ _

theorem json_escape_replicate (n : Nat) : json_escape (List.replicate n 65) = List.replicate n 65 := by
  induction n with
  | zero => rfl
  | succ k ih =>
    simp only [List.replicate_succ, json_escape, ih]
    rfl

theorem cstr_replicate (n : Nat) : cstr (List.replicate n 65) = List.replicate n 65 :=
  cstr_of_nul_free _ (fun b hb => by rw [List.eq_of_mem_replicate hb]; decide)

set_option maxRecDepth 20000 in
theorem json_text_of_message (m : List Nat) :
    json_text { overlong_record with message := some m } bare_env
      = overlong_head
        ++ (json_escape (cstr m)
          ++ lit "\", \"detail\": null, \"hint\": null, \"context\": null \x7d") := by
  have e1 : json_text ⟨20, 0, some m, none, none, none, none⟩ bare_env
      = (lit "\x7b " ++ json_pair "username" none ++ lit ", " ++ json_pair "database" none
          ++ lit ", " ++ json_pair "remotehost" none ++ lit ", "
          ++ json_pair "debug_query_string" none ++ lit ", " ++ json_pair_int7 "elevel" 20
          ++ lit ", " ++ json_pair "funcname" none ++ lit ", " ++ json_pair_int7 "sqlerrcode" 0
          ++ lit ", " ++ (lit "\"" ++ lit "message" ++ lit "\"" ++ lit ": " ++ lit "\""))
        ++ (json_escape (cstr m)
          ++ (lit "\"" ++ lit ", " ++ json_pair "detail" none ++ lit ", " ++ json_pair "hint" none
            ++ lit ", " ++ json_pair "context" none ++ lit " \x7d")) := by
    simp only [json_text, json_pair, json_pair_int7, json_value, json_quote, bare_env,
      List.append_assoc]
  have hP : (lit "\x7b " ++ json_pair "username" none ++ lit ", " ++ json_pair "database" none
          ++ lit ", " ++ json_pair "remotehost" none ++ lit ", "
          ++ json_pair "debug_query_string" none ++ lit ", " ++ json_pair_int7 "elevel" 20
          ++ lit ", " ++ json_pair "funcname" none ++ lit ", " ++ json_pair_int7 "sqlerrcode" 0
          ++ lit ", " ++ (lit "\"" ++ lit "message" ++ lit "\"" ++ lit ": " ++ lit "\""))
      = overlong_head := by decide
  have hS : (lit "\"" ++ lit ", " ++ json_pair "detail" none ++ lit ", " ++ json_pair "hint" none
            ++ lit ", " ++ json_pair "context" none ++ lit " \x7d")
      = lit "\", \"detail\": null, \"hint\": null, \"context\": null \x7d" := by decide
  rw [← hP, ← hS]
  exact e1

theorem json_scan_text_replicate (n : Nat) (tail : List Nat) :
    json_scan .text (List.replicate n 65 ++ tail) = json_scan .text tail := by
  induction n with
  | zero => rfl
  | succ k ih =>
    simp only [List.replicate_succ, List.cons_append, json_scan]
    exact ih

set_option maxRecDepth 20000 in
theorem cstr_format_json_overlong (msgbuf : List Nat) (target : LogTarget) :
    cstr (format_json msgbuf target overlong_record bare_env)
      = overlong_head
        ++ List.replicate 8044 65 := by
  rw [cstr_format_json]
  have h := json_text_of_message (List.replicate 9000 65)
  rw [cstr_replicate, json_escape_replicate] at h
  rw [show json_text overlong_record bare_env = _ from h]
  have hlen : overlong_head.length = 147 := by decide
  have hmax : MAX_MESSAGE_SIZE - 1 = 8191 := by decide
  rw [hmax, List.take_append_eq_append_take, List.take_append_eq_append_take, hlen,
    List.take_of_length_le (by rw [hlen]; decide), List.take_replicate, List.length_replicate,
    show min (8191 - 147) 9000 = 8044 by decide, show 8191 - 147 - 9000 = 0 by decide,
    List.take_zero, List.append_nil]

set_option maxRecDepth 20000 in
theorem json_scan_overlong_head : json_scan .outside overlong_head = some .text := by decide

theorem json_escape_append (a b : List Nat) :
    json_escape (a ++ b) = json_escape a ++ json_escape b := by
  induction a with
  | nil => rfl
  | cons c r ih =>
    show json_image c ++ json_escape (r ++ b) = json_image c ++ json_escape r ++ json_escape b
    rw [ih, List.append_assoc]

set_option maxRecDepth 20000 in
theorem cstr_format_json_cut_escape (msgbuf : List Nat) (target : LogTarget) :
    cstr (format_json msgbuf target cut_escape_record bare_env)
      = overlong_head ++ (List.replicate 8043 65 ++ [92]) := by
  rw [cstr_format_json]
  have h := json_text_of_message (List.replicate 8043 65 ++ [10])
  have hc : cstr (List.replicate 8043 65 ++ [10]) = List.replicate 8043 65 ++ [10] :=
    cstr_of_nul_free _ (fun b hb => by
      rcases List.mem_append.mp hb with h1 | h1
      · rw [List.eq_of_mem_replicate h1]; decide
      · rw [List.mem_singleton.mp h1]; decide)
  have he : json_escape [10] = [92, 110] := by decide
  rw [hc, json_escape_append, json_escape_replicate, he, List.append_assoc] at h
  rw [show json_text cut_escape_record bare_env = _ from h]
  have hlen : overlong_head.length = 147 := by decide
  have hmax : MAX_MESSAGE_SIZE - 1 = 8191 := by decide
  rw [hmax, List.take_append_eq_append_take, List.take_append_eq_append_take, hlen,
    List.take_of_length_le (by rw [hlen]; decide), List.take_replicate, List.length_replicate,
    show min (8191 - 147) 8043 = 8043 by decide, show 8191 - 147 - 8043 = 1 by decide]
  rfl

/-- C13, as stated, fails: for the record whose message has 9000 bytes the
output of `format_json` does not end with ` \x7d`, and its scan ends inside the
string literal of the message, which is left open; and for the record whose
message is 8043 bytes and a newline the output ends with the backslash of the
escape of the newline, the scan ending after a backslash: the escape sequence
is cut short. -/
theorem format_json_cut_is_left_open :
    ¬ lit " \x7d" <:+ cstr (format_json (List.replicate MAX_MESSAGE_SIZE 0)
        (sample_target .format_json) overlong_record bare_env)
      ∧ json_scan .outside (cstr (format_json (List.replicate MAX_MESSAGE_SIZE 0)
        (sample_target .format_json) overlong_record bare_env)) = some .text
      ∧ (cstr (format_json (List.replicate MAX_MESSAGE_SIZE 0)
        (sample_target .format_json) cut_escape_record bare_env)).getLast? = some 92
      ∧ json_scan .outside (cstr (format_json (List.replicate MAX_MESSAGE_SIZE 0)
        (sample_target .format_json) cut_escape_record bare_env)) = some .escape := by
  rw [cstr_format_json_overlong, cstr_format_json_cut_escape]
  refine ⟨?_, ?_, ?_, ?_⟩
  · rintro ⟨t, ht⟩
    have h1 := congrArg List.getLast? ht
    have hl : (t ++ lit " \x7d").getLast? = some 125 := by
      rw [List.getLast?_append]; rfl
    have hr : (overlong_head ++ List.replicate 8044 65).getLast? = some 65 := by
      rw [show List.replicate 8044 65 = List.replicate 8043 65 ++ [65] from
        List.replicate_succ' 8043 65, ← List.append_assoc, List.getLast?_append]
      rfl
    rw [hl, hr] at h1
    exact absurd h1 (by decide)
  · rw [json_scan_append]
    rw [json_scan_overlong_head]
    have := json_scan_text_replicate 8044 []
    rw [List.append_nil] at this
    simp only [Option.some_bind]
    rw [this]
    rfl
  · rw [← List.append_assoc, List.getLast?_append]
    rfl
  · rw [json_scan_append, json_scan_overlong_head]
    simp only [Option.some_bind]
    rw [json_scan_text_replicate 8043 [92]]
    rfl

/-- C13, amended: for every record and session identity the output of
`format_json` begins with `\x7b `; when the encoding `json_text` is shorter
than the buffer the output is a well-formed object literal: it also ends with
` \x7d` and its scan ends outside the string literals, every literal opened
being closed and every escape sequence whole; and when the encoding has 8192
bytes or more the output is its first 8191 bytes. -/
theorem format_json_well_formed (msgbuf : List Nat) (target : LogTarget) (edata : ErrorData)
    (env : Env) :
    lit "\x7b " <+: cstr (format_json msgbuf target edata env)
      ∧ ((json_text edata env).length < MAX_MESSAGE_SIZE →
          WellFormedObject (cstr (format_json msgbuf target edata env)))
      ∧ (MAX_MESSAGE_SIZE ≤ (json_text edata env).length →
          cstr (format_json msgbuf target edata env) = (json_text edata env).take 8191
            ∧ (cstr (format_json msgbuf target edata env)).length = 8191) := by
  rw [cstr_format_json]
  refine ⟨?_, ?_, ?_⟩
  · obtain ⟨rest, hr⟩ := json_text_begins edata env
    rw [← hr, List.take_append_eq_append_take,
      List.take_of_length_le (by decide : (lit "\x7b ").length ≤ MAX_MESSAGE_SIZE - 1)]
    exact List.prefix_append _ _
  · intro hlen
    rw [List.take_of_length_le (by omega)]
    exact ⟨json_text_begins edata env, json_text_ends edata env, json_scan_json_text edata env⟩
  · intro hlen
    have hmax : MAX_MESSAGE_SIZE - 1 = 8191 := by decide
    have h8 : MAX_MESSAGE_SIZE = 8192 := rfl
    rw [hmax]
    refine ⟨rfl, ?_⟩
    rw [List.length_take]
    omega

set_option maxRecDepth 20000 in
theorem format_json_well_formed_witness :
    WellFormedObject (cstr (format_json (List.replicate MAX_MESSAGE_SIZE 0)
      (sample_target .format_json) disk_full_record bare_env)) :=
  (format_json_well_formed (List.replicate MAX_MESSAGE_SIZE 0) (sample_target .format_json)
    disk_full_record bare_env).2.1 (by decide)

/-! ## The `snprintf` formatters, for every record -/

theorem cstr_of_terminated {mem text : List Nat} (h : Terminated mem text) (hn : NulFree text) :
    cstr mem = text.take (MAX_MESSAGE_SIZE - 1) := by
  obtain ⟨rest, rfl⟩ := h
  exact cstr_append_nul _ _ (nulFree_take _ hn)

theorem terminated_snprintf_start (mem text : List Nat) :
    Terminated (snprintf mem 0 MAX_MESSAGE_SIZE text).1 text := by
  have h0 : MAX_MESSAGE_SIZE ≠ 0 := by decide
  refine ⟨mem.drop (0 + (text.take (MAX_MESSAGE_SIZE - 1) ++ [0]).length), ?_⟩
  simp only [snprintf, h0, if_false, store, List.take_zero, Nat.zero_sub, List.replicate_zero,
    List.nil_append, List.append_assoc, List.singleton_append]

theorem terminated_store_beyond {mem text : List Nat} (h : Terminated mem text) (i : Nat)
    (bs : List Nat) (hi : MAX_MESSAGE_SIZE ≤ i) : Terminated (store mem i bs) text := by
  obtain ⟨rest, hm⟩ := h
  have hlen : (text.take (MAX_MESSAGE_SIZE - 1)).length ≤ MAX_MESSAGE_SIZE - 1 := by
    rw [List.length_take]; exact Nat.min_le_left _ _
  set p := text.take (MAX_MESSAGE_SIZE - 1) with hp
  have hml : p.length + 1 ≤ mem.length := by rw [hm]; simp
  have hM : 0 < MAX_MESSAGE_SIZE := by decide
  have htake := take_store_of_le mem i bs (p.length + 1) (by omega) hml
  have hmt : mem.take (p.length + 1) = p ++ [0] := by
    rw [hm, show p ++ 0 :: rest = (p ++ [0]) ++ rest by simp]
    exact take_append_of_length (by simp)
  refine ⟨(store mem i bs).drop (p.length + 1), ?_⟩
  have := List.take_append_drop (p.length + 1) (store mem i bs)
  rw [htake, hmt] at this
  rw [← this]
  simp

theorem terminated_snprintf {mem done : List Nat} (h : Terminated mem done) (text : List Nat) :
    Terminated (snprintf mem done.length (size_left done.length) text).1 (done ++ text) := by
  by_cases hfit : done.length < MAX_MESSAGE_SIZE
  · obtain ⟨rest, hm⟩ := h
    have hd : done.take (MAX_MESSAGE_SIZE - 1) = done := List.take_of_length_le (by omega)
    rw [hd] at hm
    have hs : size_left done.length = MAX_MESSAGE_SIZE - done.length :=
      size_left_of_le _ (by omega)
    have h0 : size_left done.length ≠ 0 := by omega
    have hle : done.length ≤ mem.length := by rw [hm]; simp
    simp only [snprintf, h0, if_false]
    rw [store_of_le _ _ _ hle, hs]
    refine ⟨mem.drop (done.length
      + (text.take (MAX_MESSAGE_SIZE - done.length - 1) ++ [0]).length), ?_⟩
    have ht : mem.take done.length = done := by
      rw [hm]; exact take_append_of_length rfl
    rw [ht, List.take_append_eq_append_take, hd]
    simp only [List.append_assoc, List.singleton_append]
    congr 2
    congr 1
    omega
  · have hbig : MAX_MESSAGE_SIZE ≤ done.length := by omega
    have hsame : (done ++ text).take (MAX_MESSAGE_SIZE - 1) = done.take (MAX_MESSAGE_SIZE - 1) := by
      rw [List.take_append_of_le_length (by omega)]
    have h2 : Terminated mem (done ++ text) := by
      obtain ⟨rest, hm⟩ := h
      exact ⟨rest, by rw [hsame]; exact hm⟩
    simp only [snprintf]
    split_ifs
    · exact h2
    · exact terminated_store_beyond h2 _ _ hbig

theorem terminated_format_syslog (msgbuf : List Nat) (target : LogTarget) (edata : ErrorData)
    (env : Env) :
    Terminated (format_syslog msgbuf target edata env) (syslog_text target edata env) := by
  have h1 := terminated_snprintf_start msgbuf (syslog_header target edata env)
  have h2 := terminated_snprintf h1 (lit "-" ++ lit " ")
  have h3 := terminated_snprintf h2 (fmt_s edata.message)
  simp only [List.length_append] at h3
  exact h3

theorem nulFree_replicate_48 (n : Nat) : NulFree (List.replicate n 48) :=
  fun b hb => by rw [List.eq_of_mem_replicate hb]; decide

theorem nulFree_fmt_02u (n : Nat) : NulFree (fmt_02u n) :=
  nulFree_append (nulFree_replicate_48 _) (nulFree_fmt_u n)

theorem nulFree_strftime (max : Nat) (gmt : Tm) : NulFree (strftime max gmt) := by
  have step : ∀ (a sep : List Nat) (n : Nat), NulFree a → NulFree sep →
      NulFree (a ++ sep ++ fmt_02u n) :=
    fun a sep n ha hs => nulFree_append (nulFree_append ha hs) (nulFree_fmt_02u n)
  have hd : NulFree (lit "-") := by decide
  have hc : NulFree (lit ":") := by decide
  have hT : NulFree (lit "T") := by decide
  have hZ : NulFree (lit "Z") := by decide
  unfold strftime
  simp only []
  split_ifs
  · exact nulFree_append
      (step _ _ _ (step _ _ _ (step _ _ _ (step _ _ _ (step _ _ _ (step _ _ _
        (nulFree_fmt_u _) hd) hd) hd) hT) hc) hc) hZ
  · simp [NulFree]

theorem nulFree_fmt_s (v : Option (List Nat)) : NulFree (fmt_s v) := by
  cases v with
  | none => decide
  | some s => exact nulFree_cstr s

theorem nulFree_syslog_header (target : LogTarget) (edata : ErrorData) (env : Env) :
    NulFree (syslog_header target edata env) := by
  have h1 : NulFree (lit "<") := by decide
  have h2 : NulFree (lit ">1 ") := by decide
  have h3 : NulFree (lit " ") := by decide
  have h4 : NulFree (lit " postgres ") := by decide
  have h5 : NulFree (lit "-") := by decide
  unfold syslog_header
  exact nulFree_append (nulFree_append (nulFree_append (nulFree_append (nulFree_append
    (nulFree_append (nulFree_append (nulFree_append (nulFree_append (nulFree_append h1
      (nulFree_fmt_d _)) h2) (nulFree_strftime _ _)) h3) (nulFree_cstr _)) h4)
      (nulFree_fmt_d _)) h3) h5) h3

theorem nulFree_syslog_text (target : LogTarget) (edata : ErrorData) (env : Env) :
    NulFree (syslog_text target edata env) :=
  nulFree_append (nulFree_append (nulFree_syslog_header target edata env) (by decide))
    (nulFree_fmt_s _)

theorem cstr_format_syslog (msgbuf : List Nat) (target : LogTarget) (edata : ErrorData)
    (env : Env) :
    cstr (format_syslog msgbuf target edata env)
      = (syslog_text target edata env).take (MAX_MESSAGE_SIZE - 1) :=
  cstr_of_terminated (terminated_format_syslog msgbuf target edata env)
    (nulFree_syslog_text target edata env)

theorem fmt_02u_eq_two_digits (n : Nat) (h : n < 100) : fmt_02u n = two_digits n := by
  interval_cases n <;> rfl

theorem length_two_digits (n : Nat) : (two_digits n).length = 2 := rfl

theorem strftime_eq_timestamp (gmt : Tm) (h : ValidTm gmt) :
    strftime 32 gmt = syslog_timestamp gmt := by
  obtain ⟨hy, hmon, hday, hhour, hmin, hsec⟩ := h
  have hyl : (fmt_u (gmt.tm_year + 1900)).length ≤ 9 + 1 :=
    length_fmt_u_le _ 9 (by
      calc gmt.tm_year + 1900 < 2 ^ 31 := hy
        _ < 10 ^ (9 + 1) := by norm_num)
  unfold strftime
  simp only [fmt_02u_eq_two_digits (gmt.tm_mon + 1) (by omega),
    fmt_02u_eq_two_digits gmt.tm_mday (by omega), fmt_02u_eq_two_digits gmt.tm_hour (by omega),
    fmt_02u_eq_two_digits gmt.tm_min (by omega), fmt_02u_eq_two_digits gmt.tm_sec (by omega)]
  have hl : (syslog_timestamp gmt).length < 32 := by
    simp only [syslog_timestamp, List.length_append, length_two_digits,
      show (lit "-").length = 1 by decide, show (lit "T").length = 1 by decide,
      show (lit ":").length = 1 by decide, show (lit "Z").length = 1 by decide]
    omega
  unfold syslog_timestamp at hl ⊢
  rw [if_pos hl]

theorem syslog_text_eq_line (target : LogTarget) (edata : ErrorData) (env : Env)
    (message : List Nat) (hm : edata.message = some message) (hv : ValidTm env.gmt) :
    syslog_text target edata env
      = syslog_line (syslog_pri env.levels target edata) (syslog_timestamp env.gmt)
          (cstr env.my_hostname) env.MyProcPid (cstr message) := by
  have hl : lit " - - " = lit " " ++ (lit "-" ++ (lit " " ++ (lit "-" ++ lit " "))) := by decide
  simp only [syslog_text, syslog_header, syslog_line, strftime_eq_timestamp env.gmt hv, hm, fmt_s,
    hl, List.append_assoc]

/-- C11: for a record with a message, a clock reading in the ranges of
`gmtime` and a line shorter than the buffer, `format_syslog` returns exactly
`<PRI>1 TS HOST postgres PID - - MESSAGE` with `TS` the time stamp
`syslog_timestamp` (year, `-`, month, `-`, day, `-`, the two digits of the day
again, `T`, `HH:MM:SS`, `Z`); and a record with the same level and message
gives the same buffer whatever its other fields, the session identity and the
statement. -/
theorem format_syslog_returns_line (msgbuf : List Nat) (target : LogTarget) (edata : ErrorData)
    (env : Env) (message : List Nat) (hm : edata.message = some message) (hv : ValidTm env.gmt)
    (hlen : (syslog_line (syslog_pri env.levels target edata) (syslog_timestamp env.gmt)
      (cstr env.my_hostname) env.MyProcPid (cstr message)).length < MAX_MESSAGE_SIZE) :
    cstr (format_syslog msgbuf target edata env)
        = lit "<" ++ fmt_d (syslog_pri env.levels target edata) ++ lit ">1 "
          ++ syslog_timestamp env.gmt ++ lit " " ++ cstr env.my_hostname ++ lit " postgres "
          ++ fmt_d env.MyProcPid ++ lit " - - " ++ cstr message
      ∧ (∀ (other : ErrorData) (session : Session) (statement : Option (List Nat)),
          other.elevel = edata.elevel → other.message = edata.message →
          format_syslog msgbuf target other
              { env with session := session, debug_query_string := statement }
            = format_syslog msgbuf target edata env) := by
  constructor
  · rw [cstr_format_syslog, syslog_text_eq_line target edata env message hm hv,
      List.take_of_length_le (by omega)]
    rfl
  · intro other session statement hlev hmsg
    simp only [format_syslog, syslog_header, syslog_pri, hlev, hmsg]

theorem format_syslog_returns_line_witness :
    cstr (format_syslog (List.replicate MAX_MESSAGE_SIZE 0) (sample_target .format_syslog)
        disk_full_record bare_env)
      = lit "<131>1 2012-01-31-31T06:05:04Z box postgres 4711 - - disk full" :=
  (format_syslog_returns_line (List.replicate MAX_MESSAGE_SIZE 0)
    (sample_target .format_syslog) disk_full_record bare_env (lit "disk full") rfl
    (by decide) (by decide)).1.trans (by decide)

/-! ## Parsing what `format_netstr` writes -/

/-- The digits `digitsAux` puts in front of `acc`, read back. -/
theorem digitsAux_read :
    ∀ (fuel n : Nat) (acc : List Nat), 0 < fuel → n < 10 ^ fuel →
      ∃ ds : List Nat, digitsAux 10 decDigit fuel n acc = ds ++ acc
        ∧ ds ≠ []
        ∧ (∀ c ∈ ds, 48 ≤ c ∧ c ≤ 57)
        ∧ (∀ (a : Nat) (rest : List Nat),
            read_length (ds ++ rest) a = read_length rest (a * 10 ^ ds.length + n)) := by
  intro fuel
  induction fuel with
  | zero => intro n acc h0; exact absurd h0 (Nat.lt_irrefl 0)
  | succ f ih =>
    intro n acc _ hn
    unfold digitsAux
    by_cases h : n < 10
    · refine ⟨[decDigit n], by simp [h], by simp, ?_, ?_⟩
      · intro c hc
        simp only [List.mem_singleton] at hc
        subst hc
        simp only [decDigit]; omega
      · intro a rest
        have h1 : ¬ (48 + n = 58) := by omega
        have h2 : 48 ≤ 48 + n ∧ 48 + n ≤ 57 := by omega
        simp [read_length, decDigit, h1, h2]
    · have hdiv : n / 10 < 10 ^ f := by
        rw [Nat.div_lt_iff_lt_mul (by norm_num)]
        calc n < 10 ^ (f + 1) := hn
          _ = 10 ^ f * 10 := by ring
      have hf0 : 0 < f := by
        rcases Nat.eq_zero_or_pos f with h0 | h0
        · subst h0
          simp at hdiv
          omega
        · exact h0
      obtain ⟨ds, hds, hne, hdig, hread⟩ := ih (n / 10) (decDigit (n % 10) :: acc) hf0 hdiv
      have hmod : n % 10 < 10 := Nat.mod_lt _ (by norm_num)
      refine ⟨ds ++ [decDigit (n % 10)], by simp [h, hds], by simp, ?_, ?_⟩
      · intro c hc
        rcases List.mem_append.mp hc with hc | hc
        · exact hdig c hc
        · simp only [List.mem_singleton] at hc
          subst hc
          simp only [decDigit]; omega
      · intro a rest
        have h1 : ¬ (48 + n % 10 = 58) := by omega
        have h2 : 48 ≤ 48 + n % 10 ∧ 48 + n % 10 ≤ 57 := by omega
        rw [List.append_assoc, hread]
        simp only [List.singleton_append, read_length, decDigit, h1, h2, if_false, if_true,
          and_self, List.length_append, List.length_singleton, Nat.add_sub_cancel_left]
        congr 1
        have := Nat.div_add_mod n 10
        rw [pow_succ]
        nlinarith [Nat.div_add_mod n 10]

theorem fmt_u_read (n : Nat) :
    ∃ c ds, fmt_u n = c :: ds ∧ 48 ≤ c ∧ c ≤ 57
      ∧ ∀ rest, read_length (fmt_u n ++ 58 :: rest) 0 = some (n, rest) := by
  have hpow : n < 10 ^ (n + 1) := by
    have := Nat.lt_pow_self (show 1 < 10 by norm_num) (n + 1)
    omega
  obtain ⟨ds, hds, hne, hdig, hread⟩ := digitsAux_read (n + 1) n [] (Nat.succ_pos n) hpow
  rw [List.append_nil] at hds
  have hf : fmt_u n = ds := hds
  cases ds with
  | nil => exact absurd rfl hne
  | cons c r =>
    refine ⟨c, r, hf, (hdig c (by simp)).1, (hdig c (by simp)).2, fun rest => ?_⟩
    rw [hf, hread]
    simp [read_length]

theorem netstr_parse_one_netstring (v rest : List Nat) :
    netstr_parse_one (netstring v ++ rest) = some (v, rest) := by
  obtain ⟨c, ds, hf, hc1, hc2, hread⟩ := fmt_u_read v.length
  have e : netstring v ++ rest = fmt_u v.length ++ 58 :: (v ++ 44 :: rest) := by
    simp [netstring, show lit ":" = [58] by decide, show lit "," = [44] by decide]
  have hget : (v ++ 44 :: rest)[v.length]? = some 44 := by
    rw [List.getElem?_append_right (Nat.le_refl _)]
    simp
  have e2 : netstr_parse_one (fmt_u v.length ++ 58 :: (v ++ 44 :: rest))
      = match read_length (fmt_u v.length ++ 58 :: (v ++ 44 :: rest)) 0 with
        | none => none
        | some (n, r) => if r[n]? = some 44 then some (r.take n, r.drop (n + 1)) else none := by
    rw [hf]
    simp only [List.cons_append, netstr_parse_one, hc1, hc2, and_self, if_true]
  rw [e, e2, hread]
  simp only [hget, if_true]
  have ht : (v ++ 44 :: rest).take v.length = v := take_append_of_length rfl
  have hd : (v ++ 44 :: rest).drop (v.length + 1) = rest := by
    rw [drop_append_of_length 1 rfl]
    rfl
  rw [ht, hd]

theorem length_netstring_pos (v : List Nat) : 0 < (netstring v).length := by
  simp [netstring, show (lit ",").length = 1 by decide]

theorem netstr_parse_all_netstrings :
    ∀ (vs : List (List Nat)) (fuel : Nat), vs.length ≤ fuel →
      netstr_parse_all fuel (netstrings vs) = some vs := by
  intro vs
  induction vs with
  | nil => intro fuel _; cases fuel <;> rfl
  | cons v r ih =>
    intro fuel hfuel
    cases fuel with
    | zero => simp at hfuel
    | succ f =>
      simp only [netstrings]
      have hpos := length_netstring_pos v
      cases hx : netstring v ++ netstrings r with
      | nil =>
        have := congrArg List.length hx
        simp only [List.length_append, List.length_nil] at this
        omega
      | cons c t =>
        simp only [netstr_parse_all]
        rw [← hx, netstr_parse_one_netstring]
        simp only [ih f (by simpa using hfuel), Option.map_some']

theorem length_netstrings_ge (vs : List (List Nat)) : vs.length ≤ (netstrings vs).length := by
  induction vs with
  | nil => simp [netstrings]
  | cons v r ih =>
    have := length_netstring_pos v
    simp only [netstrings, List.length_append, List.length_cons]
    omega

theorem netstr_parse_netstrings (vs : List (List Nat)) :
    netstr_parse (netstrings vs) = some vs :=
  netstr_parse_all_netstrings vs _ (length_netstrings_ge vs)

/-- C17: for `int` levels and codes and an encoding shorter than the buffer,
the netstring parser (decimal digits up to `:`, that many bytes, `,`), applied
until the output of `format_netstr` is used up, returns the eleven values of
the fields in their order, an absent field as the empty string, whatever bytes
the values hold. -/
theorem format_netstr_round_trip (msgbuf : List Nat) (target : LogTarget) (edata : ErrorData)
    (env : Env) (h1 : IsInt edata.elevel) (h2 : IsInt edata.sqlerrcode)
    (hlen : (netstr_encoding edata env).length < MAX_MESSAGE_SIZE) :
    netstr_parse (cstr (format_netstr msgbuf target edata env))
        = some [fmt_d edata.elevel, fmt_d edata.sqlerrcode,
            field_value env.session.log_username, field_value env.session.log_database,
            field_value env.session.log_hostname, field_value edata.funcname,
            field_value edata.message, field_value edata.detail, field_value edata.hint,
            field_value edata.context, field_value env.debug_query_string]
      ∧ field_value none = [] := by
  refine ⟨?_, rfl⟩
  rw [format_netstr_eq_store msgbuf target edata env h1 h2 hlen,
    cstr_store_zero _ _ (nulFree_netstr_encoding edata env)]
  exact netstr_parse_netstrings _

set_option maxRecDepth 20000 in
theorem format_netstr_round_trip_witness :
    netstr_parse (cstr (format_netstr (List.replicate MAX_MESSAGE_SIZE 0)
        (sample_target .format_netstr)
        ⟨20, 16908420, some (lit "connection timeout"), none, some (lit "a:b,c1"), none,
          some (lit "f")⟩ bare_env))
      = some [lit "20", lit "16908420", [], [], [], lit "f", lit "connection timeout", [],
          lit "a:b,c1", [], []] :=
  (format_netstr_round_trip (List.replicate MAX_MESSAGE_SIZE 0) (sample_target .format_netstr)
    ⟨20, 16908420, some (lit "connection timeout"), none, some (lit "a:b,c1"), none,
      some (lit "f")⟩ bare_env (by decide) (by decide) (by decide)).1.trans (by decide)

/-! ## The example of the timeout filter -/

theorem emit_log_single_accept (h : Host) (t : LogTarget) (statics : Statics)
    (edata : ErrorData) (hskip : skips t edata = some false) (hok : ¬ h.sendto_result 0 < 0) :
    emit_log h [t] statics edata
      = some ([Event.sendto t.log_socket
          (cstr (call_format_payload statics.msgbuf t edata
            (h.env (capture_session h statics.session) 0))) t.si_remote],
        { session := capture_session h statics.session,
          msgbuf := call_format_payload statics.msgbuf t edata
            (h.env (capture_session h statics.session) 0) }) := by
  simp only [emit_log, emit_log_loop, hskip, hok, if_false, List.append_nil, List.nil_append]

theorem emit_log_single_skip (h : Host) (t : LogTarget) (statics : Statics)
    (edata : ErrorData) (hskip : skips t edata = some true) :
    emit_log h [t] statics edata
      = some ([], { session := capture_session h statics.session, msgbuf := statics.msgbuf }) := by
  simp only [emit_log, emit_log_loop, hskip]

theorem timeout_payload_eq :
    cstr (call_format_payload fresh_statics.msgbuf timeout_target timeout_record
      (quiet_host.env (capture_session quiet_host fresh_statics.session) 0))
      = lit "2:20,1:0,0:,0:,0:,0:," ++ lit "18:connection timeout," ++ lit "0:,0:,0:,0:," := by
  have hfp : call_format_payload fresh_statics.msgbuf timeout_target timeout_record
      (quiet_host.env (capture_session quiet_host fresh_statics.session) 0)
      = format_netstr fresh_statics.msgbuf timeout_target timeout_record
        (quiet_host.env (capture_session quiet_host fresh_statics.session) 0) := rfl
  rw [hfp, format_netstr_eq_store _ _ _ _ (by decide) (by decide) (by decide),
    cstr_store_zero _ _ (nulFree_netstr_encoding _ _)]
  decide

/-- C15, as stated, fails: the record with the message `connection timeout` is
sent, but the text `19:connection timeout,` occurs nowhere in its payload; the
seventh value the parser finds in the payload is the message, of 18 bytes. -/
theorem timeout_segment_is_not_19 :
    ∃ payload after,
      emit_log quiet_host [timeout_target] fresh_statics timeout_record
          = some ([Event.sendto 3 payload timeout_target.si_remote], after)
        ∧ ¬ lit "19:connection timeout," <:+: payload
        ∧ (netstr_parse payload).bind (fun vs => vs[6]?) = some (lit "connection timeout")
        ∧ (lit "connection timeout").length = 18 := by
  refine ⟨_, _, emit_log_single_accept quiet_host timeout_target fresh_statics timeout_record
    (by decide) (by decide), ?_, ?_, by decide⟩
  · rw [timeout_payload_eq]; decide
  · rw [timeout_payload_eq]; decide

/-- C15, amended: for the netstring target with minimum level 0 and the filter
`timeout`, the record with the message `connection timeout` is sent, in one
datagram whose payload has as its seventh segment, after the six segments
`2:20,1:0,0:,0:,0:,0:,`, exactly `18:connection timeout,`; the record with the
message `ok` is not sent. -/
theorem emit_log_timeout_example :
    (∃ after,
      emit_log quiet_host [timeout_target] fresh_statics timeout_record
        = some ([Event.sendto 3
            (lit "2:20,1:0,0:,0:,0:,0:," ++ lit "18:connection timeout," ++ lit "0:,0:,0:,0:,")
            timeout_target.si_remote], after))
      ∧ netstr_parse
          (lit "2:20,1:0,0:,0:,0:,0:," ++ lit "18:connection timeout," ++ lit "0:,0:,0:,0:,")
          = some [lit "20", lit "0", [], [], [], [], lit "connection timeout", [], [], [], []]
      ∧ netstring (lit "connection timeout") = lit "18:connection timeout,"
      ∧ (∃ after,
          emit_log quiet_host [timeout_target] fresh_statics ok_record = some ([], after)) := by
  refine ⟨⟨⟨capture_session quiet_host fresh_statics.session,
      call_format_payload fresh_statics.msgbuf timeout_target timeout_record
        (quiet_host.env (capture_session quiet_host fresh_statics.session) 0)⟩, ?_⟩,
    by decide, by decide,
    ⟨_, emit_log_single_skip quiet_host timeout_target fresh_statics ok_record (by decide)⟩⟩
  rw [emit_log_single_accept quiet_host timeout_target fresh_statics timeout_record
    (by decide) (by decide), timeout_payload_eq]
  rfl

/-! ## `append_string` at the end of the room -/

/-- C18, as stated, fails: with room for 4 and a source of 6 bytes
`append_string` copies 3 bytes, not 4, moves the cursor by 3 and leaves the
counter at 1. -/
theorem append_string_copies_one_less :
    (lit "abcdef").length = 6
      ∧ append_string ⟨List.replicate 8 0, 0, 4⟩ (some (lit "abcdef"))
        = ⟨lit "abc" ++ List.replicate 5 0, 3, 1⟩ := by
  decide

/-- C18, amended: from a cursor on a terminator with a counter `m ≥ 1` and a
source longer than `m`, `append_string` copies exactly the first `m - 1` bytes
of the source and a terminator, moves the cursor by `m - 1` and reduces the
counter by `m - 1`, to 1; for a null source, and for a counter of 0, it leaves
memory, cursor and counter as they are. -/
theorem append_string_cut (st : Cursor) (s : List Nat) (hst : AtNul st) (hm : 1 ≤ st.max)
    (hlen : st.max < strlen s) :
    (append_string st (some s)).mem = store st.mem st.dst ((cstr s).take (st.max - 1) ++ [0])
      ∧ cstr ((append_string st (some s)).mem.drop st.dst) = (cstr s).take (st.max - 1)
      ∧ ((cstr s).take (st.max - 1)).length = st.max - 1
      ∧ (append_string st (some s)).dst = st.dst + (st.max - 1)
      ∧ (append_string st (some s)).max = st.max - (st.max - 1)
      ∧ (append_string st (some s)).max = 1
      ∧ (∀ st0 : Cursor, append_string st0 none = st0)
      ∧ (∀ (st0 : Cursor) (src : Option (List Nat)), st0.max = 0 → append_string st0 src = st0) := by
  have hl : ((cstr s).take (st.max - 1)).length = st.max - 1 := by
    unfold strlen at hlen
    rw [List.length_take]
    omega
  rw [append_string_eq hst (by omega)]
  refine ⟨rfl, cstr_drop_put hst _ (nulFree_take _ (nulFree_cstr s)), hl, ?_, ?_, ?_,
    append_string_none, fun st0 src h0 => by simp only [append_string, h0, if_true]⟩
  · simp only [Cursor.put, hl]
  · simp only [Cursor.put, hl]
  · simp only [Cursor.put, hl]; omega

theorem append_string_cut_witness :
    (append_string ⟨List.replicate 8 0, 0, 4⟩ (some (lit "abcdef"))).dst = 0 + (4 - 1) :=
  (append_string_cut ⟨List.replicate 8 0, 0, 4⟩ (lit "abcdef") (by decide) (by decide)
    (by decide)).2.2.2.1

/-! ## Construction of the targets -/

theorem PG_init_without_break (facilitynames : List CODE) (configs : List TargetConfig)
    (h : ∀ c ∈ configs, init_target facilitynames c ≠ .break_) :
    _PG_init facilitynames configs
      = configs.filterMap (fun c => appended (init_target facilitynames c)) := by
  induction configs with
  | nil => rfl
  | cons c rest ih =>
    have hc := h c (by simp)
    have hr := ih (fun x hx => h x (by simp [hx]))
    cases hi : init_target facilitynames c with
    | continue_ => simp only [_PG_init, hi, List.filterMap_cons, appended, hr]
    | break_ => exact absurd hi hc
    | append target => simp only [_PG_init, hi, List.filterMap_cons, appended, hr]

theorem PG_init_break (facilitynames : List CODE) (before : List TargetConfig)
    (c : TargetConfig) (later : List TargetConfig)
    (hb : ∀ x ∈ before, init_target facilitynames x ≠ .break_)
    (hc : init_target facilitynames c = .break_) :
    _PG_init facilitynames (before ++ c :: later) = _PG_init facilitynames before := by
  induction before with
  | nil => simp only [List.nil_append, _PG_init, hc]
  | cons x rest ih =>
    have hx := hb x (by simp)
    have hr := ih (fun y hy => hb y (by simp [hy]))
    cases hi : init_target facilitynames x with
    | continue_ => rw [List.cons_append]; simp only [_PG_init, hi, hr]
    | break_ => exact absurd hi hx
    | append target => rw [List.cons_append]; simp only [_PG_init, hi, hr]

/-- C14: a json target `b` configured after a syslog target `a` whose facility
name `bogus` does not resolve is not in the list, which is empty, although `b`
alone, or configured before `a`, is in the list; a target of the unknown
format `xml` is in the list with the json formatter. -/
theorem PG_init_drops_later_targets :
    _PG_init glibc_facilitynames
        [sample_config "a" (some "syslog") (some "bogus"), sample_config "b" (some "json") none]
        = []
      ∧ (_PG_init glibc_facilitynames [sample_config "b" (some "json") none]).map
          (fun t => t.name) = [lit "b"]
      ∧ (_PG_init glibc_facilitynames
          [sample_config "b" (some "json") none,
           sample_config "a" (some "syslog") (some "bogus")]).map (fun t => t.name) = [lit "b"]
      ∧ (_PG_init glibc_facilitynames [sample_config "x" (some "xml") none]).map
          (fun t => (t.name, t.format_payload)) = [(lit "x", Formatter.format_json)] := by
  decide

end PgLogforward
